import Mathlib

/-!
Verification development for the ActiveSG proxy dispatcher (`src/app.py`).

The program is a small Flask forwarding service with four proxy routes
(`/api/venues`, `/api/sportslist`, `/api/activity`, `/api/capacity`).
Each handler builds a fixed upstream URL (the activity handler splices a
`quote_plus`-encoded `sport` query parameter into the URL template), issues
one `requests.get` with the constant `BROWSER_HEADERS` table, calls
`raise_for_status` (which raises exactly for statuses in 400..599), parses
the body with `response.json()`, and re-serialises the parsed value with
Flask's `jsonify` (the production configuration: compact separators,
`sort_keys = True`, `ensure_ascii = True`, and a trailing newline).
The three `except` clauses map request failures, JSON decode failures and
any other exception to fixed 500 error bodies.  The dependency on
`requests` is unpinned and the repository is from the era of
`requests >= 2.27`, where `response.json()` raises
`requests.exceptions.JSONDecodeError` — a `RequestException` subclass — on
a malformed body, so the first `except` clause (`src/app.py:51`) catches
decode failures and produces the fetch-failure body; the
`except ValueError` clause (`src/app.py:55`) is dead code for them.

The shallow embedding below models:
  * `quote_plus` / percent-decoding over UTF-8 bytes (bytes as `Nat`),
  * JSON values, a `json.loads`-style parser and a `jsonify`-style
    serialiser (integers only: JSON numbers with fraction or exponent
    parts become Python floats, which are outside this embedding, so the
    modelled parser rejects them; the parser also rejects lone surrogate
    escapes, which Lean `Char` cannot represent),
  * the dispatcher: each handler is a total function from the inbound
    request and a transport oracle to the outbound `(status, body)` pair
    together with the list of upstream calls it performed.

Exception messages produced inside the `requests` library are modelled by
their documented shape (`raiseForStatusMsg`) or by a fixed representative
text (`jsonDecodeErrMsg`); no claim depends on their exact wording beyond
non-emptiness.
-/

/-! ## Named structural characters of the JSON syntax -/

def dquote : Char := Char.ofNat 34

def bslash : Char := Char.ofNat 92

def lbrace : Char := Char.ofNat 123

def rbrace : Char := Char.ofNat 125

/-! ## Hex digits -/

/-- Lowercase hex digit, as used by `json.dumps` unicode escapes
(CPython formats with `%04x`). Input is taken modulo the 16 cases. -/
def hexDigit : Nat → Char
  | 0 => '0' | 1 => '1' | 2 => '2' | 3 => '3' | 4 => '4'
  | 5 => '5' | 6 => '6' | 7 => '7' | 8 => '8' | 9 => '9'
  | 10 => 'a' | 11 => 'b' | 12 => 'c' | 13 => 'd' | 14 => 'e'
  | _ => 'f'

/-- Uppercase hex digit, as used by `urllib.parse.quote_plus` escapes. -/
def hexDigitU : Nat → Char
  | 0 => '0' | 1 => '1' | 2 => '2' | 3 => '3' | 4 => '4'
  | 5 => '5' | 6 => '6' | 7 => '7' | 8 => '8' | 9 => '9'
  | 10 => 'A' | 11 => 'B' | 12 => 'C' | 13 => 'D' | 14 => 'E'
  | _ => 'F'

/-- Value of a hex digit character (either case), as accepted by both
`json.loads` `\uXXXX` escapes and `urllib.parse.unquote` `%XX` escapes. -/
def hexVal (c : Char) : Option Nat :=
  if 48 ≤ c.toNat ∧ c.toNat ≤ 57 then some (c.toNat - 48)
  else if 97 ≤ c.toNat ∧ c.toNat ≤ 102 then some (c.toNat - 87)
  else if 65 ≤ c.toNat ∧ c.toNat ≤ 70 then some (c.toNat - 55)
  else none

/-- Combine four hex digits into a code unit. -/
def hex4 (a b c d : Char) : Option Nat :=
  match hexVal a, hexVal b, hexVal c, hexVal d with
  | some x, some y, some z, some w => some (4096 * x + 256 * y + 16 * z + w)
  | _, _, _, _ => none

/-- The four hex digits of a code unit below 0x10000, lowercase. -/
def hex4chars (n : Nat) : List Char :=
  [hexDigit (n / 4096 % 16), hexDigit (n / 256 % 16), hexDigit (n / 16 % 16), hexDigit (n % 16)]

/-! ## UTF-8 (Python encodes `str` to UTF-8 bytes before percent-encoding) -/

/-- UTF-8 encoding of one unicode scalar value, bytes as `Nat`. -/
def utf8EncodeChar (c : Char) : List Nat :=
  let n := c.toNat
  if n < 0x80 then [n]
  else if n < 0x800 then [0xC0 + n / 0x40, 0x80 + n % 0x40]
  else if n < 0x10000 then
    [0xE0 + n / 0x1000, 0x80 + n / 0x40 % 0x40, 0x80 + n % 0x40]
  else
    [0xF0 + n / 0x40000, 0x80 + n / 0x1000 % 0x40, 0x80 + n / 0x40 % 0x40, 0x80 + n % 0x40]

/-- UTF-8 encoding of a string. -/
def utf8Encode (s : String) : List Nat := s.data.flatMap utf8EncodeChar

/-- Whether a byte is a UTF-8 continuation byte. -/
def isCont (b : Nat) : Bool := 0x80 ≤ b && b < 0xC0

/-- Read one continuation byte: its 6 payload bits and the rest. -/
def readCont : List Nat → Option (Nat × List Nat)
  | b :: r => if isCont b then some (b - 0x80, r) else none
  | [] => none

/-- Decode one UTF-8 scalar from a lead byte and the remaining bytes:
the scalar value and the bytes after its encoding.  Overlong forms,
surrogates and stray bytes are rejected. -/
def utf8Step (b : Nat) (r : List Nat) : Option (Nat × List Nat) :=
  if b < 0x80 then some (b, r)
  else if b < 0xC0 then none
  else if b < 0xE0 then
    match readCont r with
    | some (x, r2) =>
      let n := (b - 0xC0) * 0x40 + x
      if 0x80 ≤ n then some (n, r2) else none
    | none => none
  else if b < 0xF0 then
    match readCont r with
    | some (x, r1) =>
      match readCont r1 with
      | some (y, r2) =>
        let n := (b - 0xE0) * 0x1000 + x * 0x40 + y
        if 0x800 ≤ n ∧ (n < 0xD800 ∨ 0xE000 ≤ n) then some (n, r2) else none
      | none => none
    | none => none
  else if b < 0xF8 then
    match readCont r with
    | some (x, r1) =>
      match readCont r1 with
      | some (y, r1b) =>
        match readCont r1b with
        | some (z, r2) =>
          let n := (b - 0xF0) * 0x40000 + x * 0x1000 + y * 0x40 + z
          if 0x10000 ≤ n ∧ n < 0x110000 then some (n, r2) else none
        | none => none
      | none => none
    | none => none
  else none

theorem readCont_length {r : List Nat} {x : Nat} {r2 : List Nat}
    (h : readCont r = some (x, r2)) : r2.length + 1 = r.length := by
  cases r with
  | nil => simp [readCont] at h
  | cons b t =>
    simp only [readCont] at h
    split at h
    · simp at h
      rw [← h.2]
      simp
    · simp at h

theorem utf8Step_length {b : Nat} {r : List Nat} {n : Nat} {r2 : List Nat}
    (h : utf8Step b r = some (n, r2)) : r2.length ≤ r.length := by
  unfold utf8Step at h
  rcases hr : readCont r with _ | ⟨x, r1⟩
  all_goals rw [hr] at h
  all_goals simp only [] at h
  · repeat' split at h
    all_goals simp_all
  · have hl1 := readCont_length hr
    rcases hr1 : readCont r1 with _ | ⟨y, r1b⟩
    all_goals rw [hr1] at h
    all_goals simp only [] at h
    · repeat' split at h
      all_goals simp_all
      all_goals omega
    · have hl2 := readCont_length hr1
      rcases hr2 : readCont r1b with _ | ⟨z, r1c⟩
      all_goals rw [hr2] at h
      all_goals simp only [] at h
      · repeat' split at h
        all_goals simp_all
        all_goals omega
      · have hl3 := readCont_length hr2
        repeat' split at h
        all_goals simp_all
        all_goals omega

/-- Strict UTF-8 decoding (overlong forms, surrogates and stray bytes are
rejected; Python's `errors="replace"` substitution is not modelled — the
claims only use decoding where it succeeds). -/
def utf8Decode : List Nat → Option (List Char)
  | [] => some []
  | b :: r =>
    match h : utf8Step b r with
    | some (n, r2) => (utf8Decode r2).map (fun t => Char.ofNat n :: t)
    | none => none
  termination_by l => l.length
  decreasing_by
    have := utf8Step_length h
    simp
    omega

/-! ## `urllib.parse.quote_plus` and its inverse -/

/-- The characters `quote_plus` never escapes: ASCII letters, digits and
`_.-~` (CPython `urllib.parse` `ALWAYS_SAFE`, with the default empty
`safe` argument). -/
def isSafeByte (b : Nat) : Bool :=
  (65 ≤ b && b ≤ 90) || (97 ≤ b && b ≤ 122) || (48 ≤ b && b ≤ 57) ||
    b == 45 || b == 46 || b == 95 || b == 126

/-- `quote_plus` on one UTF-8 byte: safe bytes pass through, space becomes
`+`, everything else becomes an uppercase `%XX` escape. -/
def quoteByte (b : Nat) : List Char :=
  if isSafeByte b then [Char.ofNat b]
  else if b == 32 then ['+']
  else ['%', hexDigitU (b / 16 % 16), hexDigitU (b % 16)]

/-- `quote_plus` over a byte sequence. -/
def quotePlusBytes (bs : List Nat) : List Char := bs.flatMap quoteByte

/-- Model of `urllib.parse.quote_plus` on a Python `str`: UTF-8 encode,
then percent-encode with space mapped to `+` (used at `src/app.py:99`). -/
def quote_plus (s : String) : String := String.mk (quotePlusBytes (utf8Encode s))

/-- Decode the two characters after a `%`: the byte value and the input
after the escape, or `none` for an invalid escape. -/
def unquoteEsc : List Char → Option (Nat × List Char)
  | h1 :: h2 :: r2 =>
    match hexVal h1, hexVal h2 with
    | some a, some b => some (16 * a + b, r2)
    | _, _ => none
  | [_] => none
  | [] => none

theorem unquoteEsc_length {r : List Char} {b : Nat} {r2 : List Char}
    (h : unquoteEsc r = some (b, r2)) : r2.length + 2 = r.length := by
  cases r with
  | nil => simp [unquoteEsc] at h
  | cons h1 t =>
    cases t with
    | nil => simp [unquoteEsc] at h
    | cons h2 r3 =>
      simp only [unquoteEsc] at h
      split at h
      · simp at h
        rw [← h.2]
        simp
      · simp at h

/-- Percent-decoding of an ASCII string to bytes, with `+` decoded to a
space, as `urllib.parse.unquote_plus` (and WHATWG `URLSearchParams`, the
upstream's query parsing) do.  An invalid escape leaves `%` literal,
matching CPython. -/
def unquotePlusBytes : List Char → List Nat
  | [] => []
  | c :: r =>
    if c = '+' then 32 :: unquotePlusBytes r
    else if c = '%' then
      match h : unquoteEsc r with
      | some (b, r2) => b :: unquotePlusBytes r2
      | none => 37 :: unquotePlusBytes r
    else c.toNat :: unquotePlusBytes r
  termination_by cs => cs.length
  decreasing_by
    all_goals try (have hq := unquoteEsc_length h)
    all_goals simp
    all_goals omega

/-- Model of `urllib.parse.unquote_plus`: percent-decode (with `+` as
space) and UTF-8-decode the resulting bytes. -/
def unquote_plus (s : String) : Option String :=
  (utf8Decode (unquotePlusBytes s.data)).map String.mk

/-! ## JSON values

`response.json()` gives a Python value; `jsonify` re-serialises it.  The
embedding keeps the JSON tree: objects are member lists in source order
(Python dicts preserve insertion order; `json.loads` keeps the first
position and last value for duplicate keys). -/

inductive Json where
  | null : Json
  | bool (b : Bool) : Json
  | num (n : Int) : Json
  | str (s : String) : Json
  | arr (elems : List Json) : Json
  | obj (members : List (String × Json)) : Json
deriving Repr

mutual

def jsize : Json → Nat
  | .null => 1
  | .bool _ => 1
  | .num _ => 1
  | .str _ => 1
  | .arr xs => 1 + jsizeL xs
  | .obj ms => 1 + jsizeM ms

def jsizeL : List Json → Nat
  | [] => 0
  | x :: xs => 1 + jsize x + jsizeL xs

def jsizeM : List (String × Json) → Nat
  | [] => 0
  | kv :: ms => 1 + jsize kv.2 + jsizeM ms

end

theorem jsize_le_of_mem_list {x : Json} {xs : List Json} (h : x ∈ xs) :
    jsize x ≤ jsizeL xs := by
  induction xs with
  | nil => cases h
  | cons y ys ih =>
    rcases List.mem_cons.mp h with rfl | h2
    · simp [jsizeL]; omega
    · have := ih h2; simp [jsizeL]; omega

theorem jsize_le_of_mem_members {kv : String × Json} {ms : List (String × Json)}
    (h : kv ∈ ms) : jsize kv.2 ≤ jsizeM ms := by
  induction ms with
  | nil => cases h
  | cons y ys ih =>
    rcases List.mem_cons.mp h with rfl | h2
    · simp [jsizeM]; omega
    · have := ih h2; simp [jsizeM]; omega

/-- Structural induction for `Json` giving hypotheses at every array
element and object member value. -/
theorem jsonInd (P : Json → Prop)
    (hnull : P .null)
    (hbool : ∀ b, P (.bool b))
    (hnum : ∀ n, P (.num n))
    (hstr : ∀ s, P (.str s))
    (harr : ∀ xs, (∀ x ∈ xs, P x) → P (.arr xs))
    (hobj : ∀ ms, (∀ kv ∈ ms, P kv.2) → P (.obj ms)) :
    ∀ v, P v := by
  have main : ∀ n v, jsize v ≤ n → P v := by
    intro n
    induction n with
    | zero =>
      intro v h
      cases v <;> simp [jsize] at h
    | succ n ih =>
      intro v h
      cases v with
      | null => exact hnull
      | bool b => exact hbool b
      | num m => exact hnum m
      | str s => exact hstr s
      | arr xs =>
        refine harr xs (fun x hx => ih x ?_)
        have := jsize_le_of_mem_list hx
        simp [jsize] at h
        omega
      | obj ms =>
        refine hobj ms (fun kv hkv => ih kv.2 ?_)
        have := jsize_le_of_mem_members hkv
        simp [jsize] at h
        omega
  exact fun v => main (jsize v) v le_rfl

/-! ## Key ordering and canonical forms -/

/-- Lexicographic comparison of character sequences by code point:
the order Python uses to compare `str` values. -/
def charsLe : List Char → List Char → Bool
  | [], _ => true
  | _ :: _, [] => false
  | c :: cs, d :: ds =>
    if c.toNat < d.toNat then true
    else if d.toNat < c.toNat then false
    else charsLe cs ds

/-- String comparison by code point. -/
def strLe (a b : String) : Bool := charsLe a.data b.data

theorem charsLe_total : ∀ x y : List Char, charsLe x y = true ∨ charsLe y x = true := by
  intro x
  induction x with
  | nil => intro y; left; cases y <;> rfl
  | cons c cs ih =>
    intro y
    cases y with
    | nil => right; rfl
    | cons d ds =>
      by_cases h1 : c.toNat < d.toNat
      · left; simp [charsLe, h1]
      · by_cases h2 : d.toNat < c.toNat
        · right; simp [charsLe, h2, h1]
        · rcases ih ds with h | h
          · left; simp [charsLe, h1, h2, h]
          · right; simp [charsLe, h1, h2, h]

theorem charsLe_trans : ∀ x y z : List Char,
    charsLe x y = true → charsLe y z = true → charsLe x z = true := by
  intro x
  induction x with
  | nil => intro y z _ _; cases z <;> rfl
  | cons c cs ih =>
    intro y z hxy hyz
    cases y with
    | nil => simp [charsLe] at hxy
    | cons d ds =>
      cases z with
      | nil => simp [charsLe] at hyz
      | cons e es =>
        simp only [charsLe] at hxy hyz ⊢
        by_cases h1 : c.toNat < d.toNat
        · rw [if_pos h1] at hxy
          by_cases g1 : d.toNat < e.toNat
          · rw [if_pos (by omega : c.toNat < e.toNat)]
          · rw [if_neg g1] at hyz
            by_cases g2 : e.toNat < d.toNat
            · rw [if_pos g2] at hyz; exact absurd hyz (by simp)
            · rw [if_pos (by omega : c.toNat < e.toNat)]
        · rw [if_neg h1] at hxy
          by_cases h2 : d.toNat < c.toNat
          · rw [if_pos h2] at hxy; exact absurd hxy (by simp)
          · rw [if_neg h2] at hxy
            by_cases g1 : d.toNat < e.toNat
            · rw [if_pos (by omega : c.toNat < e.toNat)]
            · rw [if_neg g1] at hyz
              by_cases g2 : e.toNat < d.toNat
              · rw [if_pos g2] at hyz; exact absurd hyz (by simp)
              · rw [if_neg g2] at hyz
                rw [if_neg (by omega : ¬ c.toNat < e.toNat),
                  if_neg (by omega : ¬ e.toNat < c.toNat)]
                exact ih ds es hxy hyz

/-- Member comparison by key, the order `sort_keys=True` sorts with
(Python compares strings by code point). -/
def keyLE (a b : String × Json) : Prop := strLe a.1 b.1 = true

instance : DecidableRel keyLE := fun a b => inferInstanceAs (Decidable (strLe a.1 b.1 = true))

instance : IsTotal (String × Json) keyLE := ⟨fun a b => charsLe_total a.1.data b.1.data⟩

instance : IsTrans (String × Json) keyLE :=
  ⟨fun a b c h1 h2 => charsLe_trans a.1.data b.1.data c.1.data h1 h2⟩

mutual

/-- Recursively sort object members by key: the transformation
`jsonify`'s `sort_keys=True` applies to the value tree. -/
def sortKeysJson : Json → Json
  | .null => .null
  | .bool b => .bool b
  | .num n => .num n
  | .str s => .str s
  | .arr xs => .arr (sortKeysList xs)
  | .obj ms => .obj (List.insertionSort keyLE (sortKeysMembers ms))

def sortKeysList : List Json → List Json
  | [] => []
  | x :: xs => sortKeysJson x :: sortKeysList xs

def sortKeysMembers : List (String × Json) → List (String × Json)
  | [] => []
  | (k, v) :: ms => (k, sortKeysJson v) :: sortKeysMembers ms

end

/-- The last value paired with key `k` in the list, defaulting to `v`:
how Python dict construction resolves duplicate keys. -/
def lastValueFor (k : String) (v : Json) : List (String × Json) → Json
  | [] => v
  | (k2, v2) :: r => lastValueFor k (if k2 = k then v2 else v) r

/-- Collapse duplicate keys: each key keeps its first position and its
last value, exactly as building a Python dict from the pairs does. -/
def dedupeLW : List (String × Json) → List (String × Json)
  | [] => []
  | (k, v) :: rest =>
    (k, lastValueFor k v rest) :: dedupeLW (rest.filter (fun p => p.1 != k))
  termination_by l => l.length
  decreasing_by
    simp only [List.length_cons]
    exact Nat.lt_succ_of_le (List.length_filter_le _ _)

mutual

/-- Recursively collapse duplicate object keys: the transformation the
parser applies (each parsed object becomes a Python dict). -/
def pcanon : Json → Json
  | .null => .null
  | .bool b => .bool b
  | .num n => .num n
  | .str s => .str s
  | .arr xs => .arr (pcanonList xs)
  | .obj ms => .obj (dedupeLW (pcanonMembers ms))

def pcanonList : List Json → List Json
  | [] => []
  | x :: xs => pcanon x :: pcanonList xs

def pcanonMembers : List (String × Json) → List (String × Json)
  | [] => []
  | (k, v) :: ms => (k, pcanon v) :: pcanonMembers ms

end

/-- Canonical form of a JSON value: sort object keys recursively, then
collapse duplicates.  `canon v` is what parsing `jsonify`'s output of `v`
yields; two values with equal `canon` differ only in object member order
and duplicate-key resolution, which the JSON data model (RFC 8259) and
Python dicts treat as the same value. -/
def canon (v : Json) : Json := pcanon (sortKeysJson v)

/-- Sameness of JSON values up to object member order and duplicate-key
resolution. -/
def Json.sameValue (a b : Json) : Prop := canon a = canon b

/-! ## Serialiser (`jsonify` / `json.dumps` with compact separators,
`sort_keys=True`, `ensure_ascii=True`) -/

/-- Decimal digits of a natural number. -/
def natToDec (n : Nat) : List Char :=
  if _h : n < 10 then [hexDigit n]
  else natToDec (n / 10) ++ [hexDigit (n % 10)]
  termination_by n
  decreasing_by exact Nat.div_lt_self (by omega) (by omega)

/-- Decimal rendering of a Python int, as `str`/`json.dumps` print it. -/
def intToDec : Int → List Char
  | .ofNat m => natToDec m
  | .negSucc m => '-' :: natToDec (m + 1)

/-- `json.dumps` escaping of one character with `ensure_ascii=True`:
everything outside printable ASCII becomes a `\uXXXX` escape (astral
characters become a surrogate pair), with the short escapes for the
usual control characters, quote and backslash. -/
def escapeChar (c : Char) : List Char :=
  if c = dquote then [bslash, dquote]
  else if c = bslash then [bslash, bslash]
  else if c.toNat = 8 then [bslash, 'b']
  else if c.toNat = 9 then [bslash, 't']
  else if c.toNat = 10 then [bslash, 'n']
  else if c.toNat = 12 then [bslash, 'f']
  else if c.toNat = 13 then [bslash, 'r']
  else if c.toNat < 0x20 then bslash :: 'u' :: hex4chars c.toNat
  else if c.toNat < 0x7F then [c]
  else if c.toNat < 0x10000 then bslash :: 'u' :: hex4chars c.toNat
  else
    let m := c.toNat - 0x10000
    bslash :: 'u' :: hex4chars (0xD800 + m / 0x400) ++ bslash :: 'u' :: hex4chars (0xDC00 + m % 0x400)

/-- Serialised JSON string literal. -/
def printStr (s : String) : List Char :=
  dquote :: s.data.flatMap escapeChar ++ [dquote]

mutual

/-- Serialise a JSON value with the compact separators `(",", ":")` that
Flask's `jsonify` uses outside debug mode.  Key sorting is a separate
pass (`sortKeysJson`); `printVal` prints members in list order. -/
def printVal : Json → List Char
  | .null => "null".data
  | .bool true => "true".data
  | .bool false => "false".data
  | .num n => intToDec n
  | .str s => printStr s
  | .arr [] => ['[', ']']
  | .arr (x :: xs) => '[' :: (printElems (x :: xs) ++ [']'])
  | .obj [] => [lbrace, rbrace]
  | .obj (m :: ms) => lbrace :: (printMembers (m :: ms) ++ [rbrace])

def printElems : List Json → List Char
  | [] => []
  | [x] => printVal x
  | x :: y :: xs => printVal x ++ ',' :: printElems (y :: xs)

def printMembers : List (String × Json) → List Char
  | [] => []
  | [(k, v)] => printStr k ++ ':' :: printVal v
  | (k, v) :: m :: ms => printStr k ++ ':' :: printVal v ++ ',' :: printMembers (m :: ms)

end

/-- Model of Flask `jsonify(v)`'s response body: `json.dumps` with sorted
keys, compact separators and `ensure_ascii`, plus the trailing newline
Flask appends. -/
def jsonifyBody (v : Json) : String :=
  String.mk (printVal (sortKeysJson v) ++ ['\n'])

/-! ## Parser (`json.loads`) -/

/-- The whitespace characters `json.loads` skips between tokens. -/
def isWsChar (c : Char) : Bool := c = ' ' || c = '\t' || c = '\n' || c = '\r'

/-- Skip inter-token whitespace. -/
def skipWs : List Char → List Char
  | [] => []
  | c :: r => if isWsChar c then skipWs r else c :: r

/-- Read four hex digits, as in a `\uXXXX` escape. -/
def readHex4 : List Char → Option (Nat × List Char)
  | h1 :: h2 :: h3 :: h4 :: r => (hex4 h1 h2 h3 h4).map (fun n => (n, r))
  | [_, _, _] => none
  | [_, _] => none
  | [_] => none
  | [] => none

theorem readHex4_length {r : List Char} {n : Nat} {r2 : List Char}
    (h : readHex4 r = some (n, r2)) : r2.length + 4 = r.length := by
  cases r with
  | nil => simp [readHex4] at h
  | cons h1 t1 =>
    cases t1 with
    | nil => simp [readHex4] at h
    | cons h2 t2 =>
      cases t2 with
      | nil => simp [readHex4] at h
      | cons h3 t3 =>
        cases t3 with
        | nil => simp [readHex4] at h
        | cons h4 t =>
          simp only [readHex4] at h
          rcases hx : hex4 h1 h2 h3 h4 with _ | m
          all_goals rw [hx] at h
          · simp at h
          · simp at h
            rw [← h.2]
            simp

/-- Decode one escape sequence after a backslash (`json.loads` escapes:
the short escapes, `/`, and `\uXXXX` with surrogate-pair combination;
lone surrogates are rejected, see the module comment). -/
def parseEsc1 : List Char → Option (Char × List Char)
  | [] => none
  | e :: r2 =>
    if e = dquote then some (dquote, r2)
    else if e = bslash then some (bslash, r2)
    else if e = '/' then some ('/', r2)
    else if e = 'b' then some (Char.ofNat 8, r2)
    else if e = 'f' then some (Char.ofNat 12, r2)
    else if e = 'n' then some (Char.ofNat 10, r2)
    else if e = 'r' then some (Char.ofNat 13, r2)
    else if e = 't' then some (Char.ofNat 9, r2)
    else if e = 'u' then
      match readHex4 r2 with
      | some (n, r3) =>
        if 0xD800 ≤ n ∧ n < 0xDC00 then
          match r3 with
          | e2 :: u2 :: r3b =>
            if e2 = bslash ∧ u2 = 'u' then
              match readHex4 r3b with
              | some (m, r4) =>
                if 0xDC00 ≤ m ∧ m < 0xE000 then
                  some (Char.ofNat (0x10000 + (n - 0xD800) * 0x400 + (m - 0xDC00)), r4)
                else none
              | none => none
            else none
          | _ => none
        else if 0xDC00 ≤ n ∧ n < 0xE000 then none
        else some (Char.ofNat n, r3)
      | none => none
    else none

theorem parseEsc1_length {r : List Char} {d : Char} {r2 : List Char}
    (h : parseEsc1 r = some (d, r2)) : r2.length < r.length := by
  cases r with
  | nil => simp [parseEsc1] at h
  | cons e t =>
    simp only [parseEsc1] at h
    by_cases q1 : e = dquote
    · rw [if_pos q1] at h
      simp at h
      have hr2 := h.2
      subst hr2
      simp only [List.length_cons]
      omega
    rw [if_neg q1] at h
    by_cases q2 : e = bslash
    · rw [if_pos q2] at h
      simp at h
      have hr2 := h.2
      subst hr2
      simp only [List.length_cons]
      omega
    rw [if_neg q2] at h
    by_cases q3 : e = '/'
    · rw [if_pos q3] at h
      simp at h
      have hr2 := h.2
      subst hr2
      simp only [List.length_cons]
      omega
    rw [if_neg q3] at h
    by_cases q4 : e = 'b'
    · rw [if_pos q4] at h
      simp at h
      have hr2 := h.2
      subst hr2
      simp only [List.length_cons]
      omega
    rw [if_neg q4] at h
    by_cases q5 : e = 'f'
    · rw [if_pos q5] at h
      simp at h
      have hr2 := h.2
      subst hr2
      simp only [List.length_cons]
      omega
    rw [if_neg q5] at h
    by_cases q6 : e = 'n'
    · rw [if_pos q6] at h
      simp at h
      have hr2 := h.2
      subst hr2
      simp only [List.length_cons]
      omega
    rw [if_neg q6] at h
    by_cases q7 : e = 'r'
    · rw [if_pos q7] at h
      simp at h
      have hr2 := h.2
      subst hr2
      simp only [List.length_cons]
      omega
    rw [if_neg q7] at h
    by_cases q8 : e = 't'
    · rw [if_pos q8] at h
      simp at h
      have hr2 := h.2
      subst hr2
      simp only [List.length_cons]
      omega
    rw [if_neg q8] at h
    by_cases q9 : e = 'u'
    swap
    · rw [if_neg q9] at h
      simp at h
    rw [if_pos q9] at h
    rcases hx : readHex4 t with _ | ⟨n1, r3⟩
    all_goals rw [hx] at h
    · simp at h
    simp only [] at h
    have l1 := readHex4_length hx
    by_cases s1 : 0xD800 ≤ n1 ∧ n1 < 0xDC00
    swap
    · rw [if_neg s1] at h
      by_cases s2 : 0xDC00 ≤ n1 ∧ n1 < 0xE000
      · rw [if_pos s2] at h
        simp at h
      · rw [if_neg s2] at h
        simp at h
        have hr2 := h.2
        subst hr2
        simp only [List.length_cons]
        omega
    rw [if_pos s1] at h
    rcases r3 with _ | ⟨e2, r3t⟩
    · simp at h
    rcases r3t with _ | ⟨u2, r3b⟩
    · simp at h
    simp only [] at h
    by_cases s2 : e2 = bslash ∧ u2 = 'u'
    swap
    · rw [if_neg s2] at h
      simp at h
    rw [if_pos s2] at h
    rcases hy : readHex4 r3b with _ | ⟨m, r4⟩
    all_goals rw [hy] at h
    · simp at h
    simp only [] at h
    have l2 := readHex4_length hy
    by_cases s3 : 0xDC00 ≤ m ∧ m < 0xE000
    swap
    · rw [if_neg s3] at h
      simp at h
    rw [if_pos s3] at h
    simp at h
    have hr2 := h.2
    subst hr2
    simp only [List.length_cons] at l1 ⊢
    omega

/-- Parse the body of a JSON string literal after the opening quote,
returning the content and the input after the closing quote.  Raw
control characters are rejected (`strict=True`). -/
def parseStrBody : List Char → Option (List Char × List Char)
  | [] => none
  | c :: r =>
    if c = dquote then some ([], r)
    else if c = bslash then
      match h : parseEsc1 r with
      | some (d, r2) => (parseStrBody r2).map (fun p => (d :: p.1, p.2))
      | none => none
    else if c.toNat < 0x20 then none
    else (parseStrBody r).map (fun p => (c :: p.1, p.2))
  termination_by l => l.length
  decreasing_by
    · have := parseEsc1_length h
      simp
      omega
    · simp

/-- Decimal digit test on the code point. -/
def isDigitC (c : Char) : Bool := 48 ≤ c.toNat && c.toNat ≤ 57

/-- Numeric value of a digit run. -/
def decValue (ds : List Char) : Nat := ds.foldl (fun a c => 10 * a + (c.toNat - 48)) 0

/-- After the integer part, Python's number grammar would continue with a
fraction or exponent, producing a float; the model rejects those. -/
def intGuard (n : Nat) (rest : List Char) : Option (Nat × List Char) :=
  match rest with
  | c :: _ => if c = '.' || c = 'e' || c = 'E' then none else some (n, rest)
  | [] => some (n, rest)

/-- Parse the integer part per CPython's `NUMBER_RE`: `0` or a nonzero
digit followed by digits (maximal munch). -/
def parseNatNum : List Char → Option (Nat × List Char)
  | [] => none
  | c :: r =>
    if c = '0' then intGuard 0 r
    else if isDigitC c then
      intGuard (decValue ((c :: r).takeWhile isDigitC)) ((c :: r).dropWhile isDigitC)
    else none

/-- Parse a JSON number (integers only, see module comment). -/
def parseNumber : List Char → Option (Json × List Char)
  | [] => none
  | c :: r =>
    if c = '-' then (parseNatNum r).map (fun p => (.num (-(p.1 : Int)), p.2))
    else (parseNatNum (c :: r)).map (fun p => (.num ((p.1 : Int)), p.2))

mutual

/-- Parse one JSON value (after skipping leading whitespace), with a
recursion budget; returns the value and the unconsumed input. -/
def parseVal : Nat → List Char → Option (Json × List Char)
  | 0, _ => none
  | f + 1, cs =>
    match skipWs cs with
    | [] => none
    | c :: r =>
      if c = 'n' then
        match r with
        | 'u' :: 'l' :: 'l' :: r2 => some (.null, r2)
        | _ => none
      else if c = 't' then
        match r with
        | 'r' :: 'u' :: 'e' :: r2 => some (.bool true, r2)
        | _ => none
      else if c = 'f' then
        match r with
        | 'a' :: 'l' :: 's' :: 'e' :: r2 => some (.bool false, r2)
        | _ => none
      else if c = dquote then
        (parseStrBody r).map (fun p => (.str (String.mk p.1), p.2))
      else if c = '[' then
        match skipWs r with
        | [] => none
        | d :: r2 =>
          if d = ']' then some (.arr [], r2)
          else (parseElems f (d :: r2)).map (fun p => (.arr p.1, p.2))
      else if c = lbrace then
        match skipWs r with
        | [] => none
        | d :: r2 =>
          if d = rbrace then some (.obj [], r2)
          else (parseObjMembers f (d :: r2)).map (fun p => (.obj (dedupeLW p.1), p.2))
      else if c = '-' || isDigitC c then parseNumber (c :: r)
      else none

/-- Parse the elements of a non-empty array, consuming the closing `]`. -/
def parseElems : Nat → List Char → Option (List Json × List Char)
  | 0, _ => none
  | g + 1, cs =>
    match parseVal g cs with
    | none => none
    | some (v, r) =>
      match skipWs r with
      | [] => none
      | c :: r2 =>
        if c = ',' then (parseElems g r2).map (fun p => (v :: p.1, p.2))
        else if c = ']' then some ([v], r2)
        else none

/-- Parse the members of a non-empty object, consuming the closing brace.
Duplicate keys are collapsed by the caller (`dedupeLW`). -/
def parseObjMembers : Nat → List Char → Option (List (String × Json) × List Char)
  | 0, _ => none
  | g + 1, cs =>
    match cs with
    | [] => none
    | c :: r =>
      if c = dquote then
        match parseStrBody r with
        | none => none
        | some (k, r2) =>
          match skipWs r2 with
          | [] => none
          | c2 :: r3 =>
            if c2 = ':' then
              match parseVal g r3 with
              | none => none
              | some (v, r4) =>
                match skipWs r4 with
                | [] => none
                | c3 :: r5 =>
                  if c3 = ',' then
                    (parseObjMembers g (skipWs r5)).map
                      (fun p => ((String.mk k, v) :: p.1, p.2))
                  else if c3 = rbrace then some ([(String.mk k, v)], r5)
                  else none
            else none
      else none

end

/-- Model of `json.loads` (hence of `requests.Response.json`): parse one
value, then require only trailing whitespace.  Total via a fuel bound
that the input length dominates. -/
def parseJson (s : String) : Option Json :=
  match parseVal (s.data.length + 1) s.data with
  | some (v, rest) => if skipWs rest = [] then some v else none
  | none => none

/-! ## The dispatcher (`src/app.py`) -/

/-- The constant outbound header table (`src/app.py:16`). -/
def BROWSER_HEADERS : List (String × String) :=
  [("User-Agent",
    "Mozilla/5.0 (Windows NT 10.0; Win64; x64; rv:109.0) Gecko/20100101 Firefox/117.0"),
   ("Accept", "application/json, text/plain, */*"),
   ("Accept-Language", "en-US,en;q=0.5"),
   ("Accept-Encoding", "gzip, deflate, br"),
   ("Connection", "keep-alive"),
   ("Pragma", "no-cache"),
   ("Cache-Control", "no-cache")]

/-- Base URL for the ActiveSG API (`src/app.py:30`). -/
def ACTIVESG_BASE_URL : String := "https://activesg.gov.sg/api/trpc"

/-- Upstream URL of `/api/venues` (`src/app.py:45`). -/
def venuesUrl : String :=
  ACTIVESG_BASE_URL ++
    "/programme.getProgrammeVenues?input=%7B%22json%22%3Anull%2C%22meta%22%3A%7B%22values%22%3A%5B%22undefined%22%5D%7D%7D"

/-- Upstream URL of `/api/sportslist` (`src/app.py:71`). -/
def sportslistUrl : String :=
  ACTIVESG_BASE_URL ++
    "/activity.listForProgrammes?input=%7B%22json%22%3Anull%2C%22meta%22%3A%7B%22values%22%3A%5B%22undefined%22%5D%7D%7D"

/-- Upstream URL of `/api/capacity` (`src/app.py:122`). -/
def capacityUrl : String :=
  ACTIVESG_BASE_URL ++
    "/pass.getFacilityCapacities?input=%7B%22json%22%3Anull%2C%22meta%22%3A%7B%22values%22%3A%5B%22undefined%22%5D%7D%7D"

/-- The constant part of the activity URL before the encoded sport
parameter (`src/app.py:100`, the f-string text before the splice). -/
def activityUrlHead : String :=
  ACTIVESG_BASE_URL ++ "/programme.listV2?input=%7B%22json%22%3A%7B%22searchQuery%22%3A%22"

/-- The constant part of the activity URL after the encoded sport
parameter (`src/app.py:100`, the f-string text after the splice). -/
def activityUrlTail : String :=
  "%22%2C%22venueId%22%3Anull%2C%22minAgeFilter%22%3Anull%2C%22maxAgeFilter%22%3Anull%2C%22sexFilter%22%3Anull%2C%22postalCode%22%3Anull%2C%22firstSessionFromDate%22%3Anull%2C%22lastSessionTillDate%22%3Anull%2C%22limit%22%3A10%2C%22cursor%22%3Anull%7D%2C%22meta%22%3A%7B%22values%22%3A%7B%22cursor%22%3A%5B%22undefined%22%5D%7D%7D%7D"

/-- Upstream URL of `/api/activity` for a given raw sport string: the
f-string at `src/app.py:100` splices `quote_plus(sport)` between two
literal URL fragments. -/
def activityUrl (sport : String) : String :=
  activityUrlHead ++ quote_plus sport ++ activityUrlTail

/-- An HTTP response as `requests.get` returns it: status code, reason
phrase and body text. -/
structure HttpResponse where
  status : Nat
  reason : String
  body : String

/-- Outcome of one `requests.get` call, decided by the environment:
a response, a `requests.exceptions.RequestException` (transport
failures such as DNS, connection or timeout errors), or any other
exception, each carrying its `str(e)` message. -/
inductive FetchOutcome where
  | success (r : HttpResponse)
  | requestError (msg : String)
  | otherError (msg : String)

/-- A transport oracle: what `requests.get` yields for a URL and header
set. -/
def Transport : Type := String → List (String × String) → FetchOutcome

/-- The transport that always produces the given outcome. -/
def constT (o : FetchOutcome) : Transport := fun _ _ => o

/-- One recorded upstream call: URL and headers passed to
`requests.get`. -/
def UpstreamCall : Type := String × List (String × String)

/-- The message of the `requests.exceptions.HTTPError` that
`raise_for_status` raises for statuses in 400..599 (its documented
shape: client error for 4xx, server error for 5xx). -/
def raiseForStatusMsg (status : Nat) (reason url : String) : String :=
  if status < 500 then
    Nat.repr status ++ " Client Error: " ++ reason ++ " for url: " ++ url
  else
    Nat.repr status ++ " Server Error: " ++ reason ++ " for url: " ++ url

/-- Representative `str(e)` of the `ValueError`/`JSONDecodeError` raised
by `response.json()` on a malformed body.  The embedding fixes one
message text; no claim depends on the wording. -/
def jsonDecodeErrMsg : String := "Expecting value: line 1 column 1 (char 0)"

/-- Error body `jsonify({"error": msg, "details": det})` as serialised by
the model's `jsonify` (keys sorted). -/
def mkErrorBody (msg det : String) : String :=
  jsonifyBody (.obj [("error", .str msg), ("details", .str det)])

/-- The `{error: "Failed to fetch <resource> data."}` message text. -/
def fetchFailMsg (res : String) : String := "Failed to fetch " ++ res ++ " data."

/-- The `{error: "Failed to parse API response for <resource>."}` text. -/
def parseFailMsg (res : String) : String := "Failed to parse API response for " ++ res ++ "."

/-- The catch-all `{error: "An unexpected server error occurred for
<resource>."}` text. -/
def unexpectedMsg (res : String) : String :=
  "An unexpected server error occurred for " ++ res ++ "."

/-- The shared body of the four handlers' `try`/`except` blocks: one
`requests.get(url, headers=BROWSER_HEADERS)`, then `raise_for_status`
(raising exactly for 400..599, caught as a `RequestException`), then
`response.json()`, then `jsonify(data), 200`.  Under the unpinned
`requests >= 2.27` the malformed-body exception is
`requests.exceptions.JSONDecodeError`, a `RequestException` subclass,
so the first `except` clause (`src/app.py:51`) catches it and decode
failures produce the fetch-failure body with `str(e)` (the decode
error text) as details; the `except ValueError` clause
(`src/app.py:55`) is dead code for them.  Returns the outbound
`(status, body)` pair and the list of upstream calls performed. -/
def tryFetch (t : Transport) (url : String) (res : String) :
    (Nat × String) × List UpstreamCall :=
  let call : UpstreamCall := (url, BROWSER_HEADERS)
  match t url BROWSER_HEADERS with
  | .requestError m => ((500, mkErrorBody (fetchFailMsg res) m), [call])
  | .otherError m => ((500, mkErrorBody (unexpectedMsg res) m), [call])
  | .success r =>
    if 400 ≤ r.status ∧ r.status < 600 then
      ((500, mkErrorBody (fetchFailMsg res) (raiseForStatusMsg r.status r.reason url)), [call])
    else
      match parseJson r.body with
      | some v => ((200, jsonifyBody v), [call])
      | none => ((500, mkErrorBody (fetchFailMsg res) jsonDecodeErrMsg), [call])

/-- An inbound request as the handlers can observe it through Flask's
`request` object: headers and query arguments (`request.args`). -/
structure Request where
  headers : List (String × String)
  args : List (String × String)

/-- `request.args.get(key)`: first value for the key, or `None`. -/
def argsGet (args : List (String × String)) (k : String) : Option String :=
  (args.find? (fun p => p.1 == k)).map (fun p => p.2)

/-- Handler of `GET /api/venues` (`src/app.py:40`). -/
def get_venues (_req : Request) (t : Transport) : (Nat × String) × List UpstreamCall :=
  tryFetch t venuesUrl "venues"

/-- Handler of `GET /api/sportslist` (`src/app.py:66`). -/
def get_sportslist (_req : Request) (t : Transport) : (Nat × String) × List UpstreamCall :=
  tryFetch t sportslistUrl "sports list"

/-- The 400 body `jsonify({"error": "Sport query parameter is
required."})` (`src/app.py:95`). -/
def missingSportBody : String :=
  jsonifyBody (.obj [("error", .str "Sport query parameter is required.")])

/-- Handler of `GET /api/activity` (`src/app.py:88`): `if not sport`
rejects a missing or empty-string parameter with 400 before any
upstream call; any other value (including whitespace-only strings,
which are truthy in Python) is encoded and forwarded. -/
def get_activity (req : Request) (t : Transport) : (Nat × String) × List UpstreamCall :=
  match argsGet req.args "sport" with
  | none => ((400, missingSportBody), [])
  | some sport =>
    if sport = "" then ((400, missingSportBody), [])
    else tryFetch t (activityUrl sport) "activity"

/-- Handler of `GET /api/capacity` (`src/app.py:117`). -/
def get_capacity (_req : Request) (t : Transport) : (Nat × String) × List UpstreamCall :=
  tryFetch t capacityUrl "capacity"

/-- The four proxied operations. -/
inductive Op where
  | venues
  | sportslist
  | activity
  | capacity
deriving DecidableEq, Repr

/-- The `<resource>` text each handler's error messages name. -/
def resourceOf : Op → String
  | .venues => "venues"
  | .sportslist => "sports list"
  | .activity => "activity"
  | .capacity => "capacity"

/-- The upstream URL an operation contacts for a given request. -/
def opUrl (op : Op) (req : Request) : String :=
  match op with
  | .venues => venuesUrl
  | .sportslist => sportslistUrl
  | .activity => activityUrl ((argsGet req.args "sport").getD "")
  | .capacity => capacityUrl

/-- Route dispatch: the handler registered for each operation. -/
def dispatch (op : Op) (req : Request) (t : Transport) :
    (Nat × String) × List UpstreamCall :=
  match op with
  | .venues => get_venues req t
  | .sportslist => get_sportslist req t
  | .activity => get_activity req t
  | .capacity => get_capacity req t

/-- Whether the request supplies the parameters the operation requires,
so that its handler reaches the `try` block (only `activity` requires
one: a `sport` value that is neither missing nor the empty string). -/
def paramsOk (op : Op) (req : Request) : Bool :=
  match op with
  | .activity =>
    match argsGet req.args "sport" with
    | some s => !(s == "")
    | none => false
  | _ => true

/-- The decoded text of the percent-encoded payload fragment before the
sport splice in the activity URL (`src/app.py:100`): the start of the
tRPC `input` JSON, up to the opening quote of `searchQuery`. -/
def jsonPayloadHead : String := "\x7b\"json\":\x7b\"searchQuery\":\""

/-- The decoded text of the percent-encoded payload fragment after the
sport splice (`src/app.py:100`): the remaining fields of the `input`
JSON, with `venueId`, `minAgeFilter`, `maxAgeFilter`, `sexFilter`,
`postalCode`, `firstSessionFromDate`, `lastSessionTillDate` and
`cursor` fixed to `null` and `limit` fixed to the constant `10`. -/
def jsonPayloadTail : String :=
  "\",\"venueId\":null,\"minAgeFilter\":null,\"maxAgeFilter\":null,\"sexFilter\":null,\"postalCode\":null,\"firstSessionFromDate\":null,\"lastSessionTillDate\":null,\"limit\":10,\"cursor\":null\x7d,\"meta\":\x7b\"values\":\x7b\"cursor\":[\"undefined\"]\x7d\x7d\x7d"

/-! ## Auxiliary definitions for the round-trip and canonical-form proofs -/

/-- Whether the input starts at a numeric-token boundary: the next
character cannot extend a number (as digit, fraction or exponent). -/
def numBoundary : List Char → Bool
  | [] => true
  | c :: _ => !(isDigitC c || c = '.' || c = 'e' || c = 'E')

mutual

/-- Recursion budget the parser needs for a value. -/
def fuelNeed : Json → Nat
  | .null => 1
  | .bool _ => 1
  | .num _ => 1
  | .str _ => 1
  | .arr [] => 1
  | .arr (x :: xs) => 1 + fuelNeedElems (x :: xs)
  | .obj [] => 1
  | .obj (m :: ms) => 1 + fuelNeedMembers (m :: ms)

def fuelNeedElems : List Json → Nat
  | [] => 0
  | x :: xs => 1 + max (fuelNeed x) (fuelNeedElems xs)

def fuelNeedMembers : List (String × Json) → Nat
  | [] => 0
  | kv :: ms => 1 + max (fuelNeed kv.2) (fuelNeedMembers ms)

end

/-- The parser, at sufficient fuel, consumes exactly the printed form of a
value (any suffix intact) and yields its duplicate-key-collapsed form. -/
def PVRT (v : Json) : Prop :=
  ∀ fuel rest, fuelNeed v ≤ fuel → numBoundary rest = true →
    parseVal fuel (printVal v ++ rest) = some (pcanon v, rest)

/-- The key sequence of a member list. -/
def keysOf (l : List (String × Json)) : List String := l.map Prod.fst


/-! ## Character and hex lemmas -/

theorem toNat_ofNat_valid (n : Nat) (h : n.isValidChar) : (Char.ofNat n).toNat = n := by
  unfold Char.ofNat
  rw [dif_pos h]
  unfold Char.ofNatAux Char.toNat
  have hlt : n < 2 ^ 32 := by rcases h with h | ⟨h1, h2⟩ <;> omega
  simp [UInt32.toNat, BitVec.toNat_ofNatLt]

theorem toNat_ofNat_lt (n : Nat) (h : n < 0xD800) : (Char.ofNat n).toNat = n :=
  toNat_ofNat_valid n (Or.inl h)

theorem charBounds (c : Char) : c.toNat < 0xD800 ∨ (0xDFFF < c.toNat ∧ c.toNat < 0x110000) :=
  c.valid

theorem char_toNat_inj (a b : Char) (h : a.toNat = b.toNat) : a = b := by
  apply Char.ext
  exact UInt32.ext h

theorem hexVal_hexDigit (n : Nat) (h : n < 16) : hexVal (hexDigit n) = some n := by
  interval_cases n <;> decide

theorem hexVal_hexDigitU (n : Nat) (h : n < 16) : hexVal (hexDigitU n) = some n := by
  interval_cases n <;> decide

theorem hex4_hex4chars (n : Nat) (h : n < 0x10000) (r : List Char) :
    ∃ a b c d, hex4chars n = [a, b, c, d] ∧ hex4 a b c d = some n := by
  refine ⟨_, _, _, _, rfl, ?_⟩
  unfold hex4
  rw [hexVal_hexDigit _ (Nat.mod_lt _ (by omega)), hexVal_hexDigit _ (Nat.mod_lt _ (by omega)),
    hexVal_hexDigit _ (Nat.mod_lt _ (by omega)), hexVal_hexDigit _ (Nat.mod_lt _ (by omega))]
  simp only
  congr 1
  omega

/-! ## UTF-8 round trip -/

theorem utf8EncodeChar_lt (c : Char) : ∀ b ∈ utf8EncodeChar c, b < 256 := by
  have hv := charBounds c
  intro b hb
  unfold utf8EncodeChar at hb
  rcases Nat.lt_or_ge c.toNat 0x80 with h1 | h1
  · simp [h1] at hb; omega
  rcases Nat.lt_or_ge c.toNat 0x800 with h2 | h2
  · simp [Nat.not_lt.mpr h1, h2] at hb
    rcases hb with rfl | rfl <;> omega
  rcases Nat.lt_or_ge c.toNat 0x10000 with h3 | h3
  · simp [Nat.not_lt.mpr h1, Nat.not_lt.mpr h2, h3] at hb
    rcases hb with rfl | rfl | rfl <;> omega
  · simp [Nat.not_lt.mpr h1, Nat.not_lt.mpr h2, Nat.not_lt.mpr h3] at hb
    rcases hb with rfl | rfl | rfl | rfl <;> omega

theorem utf8Decode_cons (b : Nat) (r : List Nat) (n : Nat) (r2 : List Nat)
    (h : utf8Step b r = some (n, r2)) :
    utf8Decode (b :: r) = (utf8Decode r2).map (fun t => Char.ofNat n :: t) := by
  rw [utf8Decode]
  split
  next n2 r3 heq =>
    rw [h] at heq
    cases heq
    rfl
  next heq => rw [h] at heq; cases heq

theorem utf8Decode_encodeChar (c : Char) (rest : List Nat) :
    utf8Decode (utf8EncodeChar c ++ rest) = (utf8Decode rest).map (fun t => c :: t) := by
  have hv := charBounds c
  rcases Nat.lt_or_ge c.toNat 0x80 with h1 | h1
  · have he : utf8EncodeChar c = [c.toNat] := by simp [utf8EncodeChar, h1]
    have hs : utf8Step c.toNat rest = some (c.toNat, rest) := by
      unfold utf8Step
      rw [if_pos h1]
    rw [he, List.cons_append, List.nil_append, utf8Decode_cons _ _ _ _ hs, Char.ofNat_toNat]
  rcases Nat.lt_or_ge c.toNat 0x800 with h2 | h2
  · have he : utf8EncodeChar c = [0xC0 + c.toNat / 0x40, 0x80 + c.toNat % 0x40] := by
      simp [utf8EncodeChar, Nat.not_lt.mpr h1, h2]
    have hs : utf8Step (0xC0 + c.toNat / 0x40) ((0x80 + c.toNat % 0x40) :: rest) =
        some (c.toNat, rest) := by
      have hr : readCont ((0x80 + c.toNat % 0x40) :: rest) = some (c.toNat % 0x40, rest) := by
        simp [readCont, isCont]
        omega
      unfold utf8Step
      have d1 : c.toNat / 0x40 < 0x20 := by omega
      rw [if_neg (by omega), if_neg (by omega), if_pos (by omega), hr]
      simp only []
      have hv2 : (0xC0 + c.toNat / 0x40 - 0xC0) * 0x40 + c.toNat % 0x40 = c.toNat := by omega
      rw [hv2, if_pos (by omega)]
    rw [he, List.cons_append, List.cons_append, List.nil_append,
      utf8Decode_cons _ _ _ _ hs, Char.ofNat_toNat]
  rcases Nat.lt_or_ge c.toNat 0x10000 with h3 | h3
  · have he : utf8EncodeChar c =
        [0xE0 + c.toNat / 0x1000, 0x80 + c.toNat / 0x40 % 0x40, 0x80 + c.toNat % 0x40] := by
      simp [utf8EncodeChar, Nat.not_lt.mpr h1, Nat.not_lt.mpr h2, h3]
    have hs : utf8Step (0xE0 + c.toNat / 0x1000)
        ((0x80 + c.toNat / 0x40 % 0x40) :: (0x80 + c.toNat % 0x40) :: rest) =
        some (c.toNat, rest) := by
      have hr : readCont ((0x80 + c.toNat / 0x40 % 0x40) :: (0x80 + c.toNat % 0x40) :: rest) =
          some (c.toNat / 0x40 % 0x40, (0x80 + c.toNat % 0x40) :: rest) := by
        simp [readCont, isCont]
        omega
      have hr2 : readCont ((0x80 + c.toNat % 0x40) :: rest) = some (c.toNat % 0x40, rest) := by
        simp [readCont, isCont]
        omega
      unfold utf8Step
      have d1 : c.toNat / 0x1000 < 0x10 := by omega
      rw [if_neg (by omega), if_neg (by omega), if_neg (by omega), if_pos (by omega), hr]
      simp only []
      rw [hr2]
      simp only []
      have hv2 : (0xE0 + c.toNat / 0x1000 - 0xE0) * 0x1000 + c.toNat / 0x40 % 0x40 * 0x40
          + c.toNat % 0x40 = c.toNat := by omega
      rw [hv2, if_pos (by omega)]
    rw [he, List.cons_append, List.cons_append, List.cons_append, List.nil_append,
      utf8Decode_cons _ _ _ _ hs, Char.ofNat_toNat]
  · have he : utf8EncodeChar c =
        [0xF0 + c.toNat / 0x40000, 0x80 + c.toNat / 0x1000 % 0x40,
         0x80 + c.toNat / 0x40 % 0x40, 0x80 + c.toNat % 0x40] := by
      simp [utf8EncodeChar, Nat.not_lt.mpr h1, Nat.not_lt.mpr h2, Nat.not_lt.mpr h3]
    have hup : c.toNat < 0x110000 := by omega
    have hs : utf8Step (0xF0 + c.toNat / 0x40000)
        ((0x80 + c.toNat / 0x1000 % 0x40) :: (0x80 + c.toNat / 0x40 % 0x40)
          :: (0x80 + c.toNat % 0x40) :: rest) = some (c.toNat, rest) := by
      have hr : readCont ((0x80 + c.toNat / 0x1000 % 0x40) :: (0x80 + c.toNat / 0x40 % 0x40)
          :: (0x80 + c.toNat % 0x40) :: rest) =
          some (c.toNat / 0x1000 % 0x40,
            (0x80 + c.toNat / 0x40 % 0x40) :: (0x80 + c.toNat % 0x40) :: rest) := by
        simp [readCont, isCont]
        omega
      have hr2 : readCont ((0x80 + c.toNat / 0x40 % 0x40) :: (0x80 + c.toNat % 0x40) :: rest) =
          some (c.toNat / 0x40 % 0x40, (0x80 + c.toNat % 0x40) :: rest) := by
        simp [readCont, isCont]
        omega
      have hr3 : readCont ((0x80 + c.toNat % 0x40) :: rest) = some (c.toNat % 0x40, rest) := by
        simp [readCont, isCont]
        omega
      unfold utf8Step
      have d1 : c.toNat / 0x40000 < 5 := by omega
      rw [if_neg (by omega), if_neg (by omega), if_neg (by omega), if_neg (by omega),
        if_pos (by omega), hr]
      simp only []
      rw [hr2]
      simp only []
      rw [hr3]
      simp only []
      have hv2 : (0xF0 + c.toNat / 0x40000 - 0xF0) * 0x40000 + c.toNat / 0x1000 % 0x40 * 0x1000
          + c.toNat / 0x40 % 0x40 * 0x40 + c.toNat % 0x40 = c.toNat := by omega
      rw [hv2, if_pos (by omega)]
    rw [he, List.cons_append, List.cons_append, List.cons_append, List.cons_append,
      List.nil_append, utf8Decode_cons _ _ _ _ hs, Char.ofNat_toNat]

theorem utf8Decode_encode_list (cs : List Char) :
    utf8Decode (cs.flatMap utf8EncodeChar) = some cs := by
  induction cs with
  | nil => simp [utf8Decode]
  | cons c r ih =>
    rw [List.flatMap_cons, utf8Decode_encodeChar, ih]
    rfl

/-! ## `quote_plus` round trip -/

theorem unquotePlusBytes_char (c : Char) (r : List Char) (h1 : ¬c = '+') (h2 : ¬c = '%') :
    unquotePlusBytes (c :: r) = c.toNat :: unquotePlusBytes r := by
  rw [unquotePlusBytes, if_neg h1, if_neg h2]

theorem unquotePlusBytes_plus (r : List Char) :
    unquotePlusBytes ('+' :: r) = 32 :: unquotePlusBytes r := by
  rw [unquotePlusBytes, if_pos (Eq.refl '+')]

theorem unquotePlusBytes_esc (r : List Char) (b : Nat) (r2 : List Char)
    (h : unquoteEsc r = some (b, r2)) :
    unquotePlusBytes ('%' :: r) = b :: unquotePlusBytes r2 := by
  rw [unquotePlusBytes, if_neg (by decide), if_pos (Eq.refl '%')]
  split
  next b2 r3 heq => rw [h] at heq; cases heq; rfl
  next heq => rw [h] at heq; cases heq

theorem unquotePlus_quoteByte (b : Nat) (hb : b < 256) (rest : List Char) :
    unquotePlusBytes (quoteByte b ++ rest) = b :: unquotePlusBytes rest := by
  unfold quoteByte
  rcases hs : isSafeByte b with _ | _
  · rw [if_neg (by simp [hs])]
    rcases h32 : b == 32 with _ | _
    · have hb32 : ¬b = 32 := by simpa using h32
      rw [if_neg (by simp [hb32])]
      have he : unquoteEsc (hexDigitU (b / 16 % 16) :: hexDigitU (b % 16) :: rest)
          = some (b, rest) := by
        simp only [unquoteEsc]
        rw [hexVal_hexDigitU _ (Nat.mod_lt _ (by omega)),
          hexVal_hexDigitU _ (Nat.mod_lt _ (by omega))]
        simp only [Option.some.injEq, Prod.mk.injEq]
        exact ⟨by omega, trivial⟩
      show unquotePlusBytes ('%' :: hexDigitU (b / 16 % 16) :: hexDigitU (b % 16) :: rest) = _
      rw [unquotePlusBytes_esc _ _ _ he]
    · have hb32 : b = 32 := by simpa using h32
      subst hb32
      rw [if_pos (by decide)]
      show unquotePlusBytes ('+' :: rest) = _
      rw [unquotePlusBytes_plus]
  · rw [if_pos (by simp [hs])]
    simp only [isSafeByte, Bool.or_eq_true, Bool.and_eq_true, beq_iff_eq, decide_eq_true_eq]
      at hs
    have hlt : b < 0xD800 := by omega
    have htn : (Char.ofNat b).toNat = b := toNat_ofNat_lt b hlt
    have hplus : ('+' : Char).toNat = 43 := rfl
    have hpct : ('%' : Char).toNat = 37 := rfl
    have hne1 : ¬Char.ofNat b = '+' := by
      intro he
      have h2 := congrArg Char.toNat he
      rw [htn, hplus] at h2
      omega
    have hne2 : ¬Char.ofNat b = '%' := by
      intro he
      have h2 := congrArg Char.toNat he
      rw [htn, hpct] at h2
      omega
    show unquotePlusBytes (Char.ofNat b :: rest) = _
    rw [unquotePlusBytes_char _ _ hne1 hne2, htn]

theorem unquotePlus_quote_list (bs : List Nat) (h : ∀ b ∈ bs, b < 256) (rest : List Char) :
    unquotePlusBytes (quotePlusBytes bs ++ rest) = bs ++ unquotePlusBytes rest := by
  induction bs with
  | nil => simp [quotePlusBytes]
  | cons b t ih =>
    have hb : b < 256 := h b (by simp)
    have ht : ∀ x ∈ t, x < 256 := fun x hx => h x (by simp [hx])
    simp only [quotePlusBytes, List.flatMap_cons, List.append_assoc]
    rw [unquotePlus_quoteByte b hb]
    show b :: unquotePlusBytes (quotePlusBytes t ++ rest) = b :: (t ++ unquotePlusBytes rest)
    rw [ih ht]

theorem utf8Encode_lt (s : String) : ∀ b ∈ utf8Encode s, b < 256 := by
  intro b hb
  unfold utf8Encode at hb
  rcases List.mem_flatMap.mp hb with ⟨c, _, hc⟩
  exact utf8EncodeChar_lt c b hc

theorem unquote_plus_quote_plus (s : String) : unquote_plus (quote_plus s) = some s := by
  unfold unquote_plus quote_plus
  have hdata : (String.mk (quotePlusBytes (utf8Encode s))).data
      = quotePlusBytes (utf8Encode s) := rfl
  rw [hdata, ← List.append_nil (quotePlusBytes (utf8Encode s)),
    unquotePlus_quote_list (utf8Encode s) (utf8Encode_lt s) []]
  have hnil : unquotePlusBytes [] = [] := by simp [unquotePlusBytes]
  rw [hnil, List.append_nil]
  show (utf8Decode (s.data.flatMap utf8EncodeChar)).map String.mk = some s
  rw [utf8Decode_encode_list]
  rfl

/-! ## String-literal round trip -/

theorem skipWs_not_ws {c : Char} (h : isWsChar c = false) (r : List Char) :
    skipWs (c :: r) = c :: r := by
  rw [skipWs, h]
  simp

theorem parseStrBody_close (r : List Char) : parseStrBody (dquote :: r) = some ([], r) := by
  rw [parseStrBody, if_pos rfl]

theorem parseStrBody_esc {r : List Char} {d : Char} {r2 : List Char}
    (h : parseEsc1 r = some (d, r2)) :
    parseStrBody (bslash :: r) = (parseStrBody r2).map (fun p => (d :: p.1, p.2)) := by
  rw [parseStrBody, if_neg (by decide), if_pos rfl]
  split
  next d2 r3 heq => rw [h] at heq; cases heq; rfl
  next heq => rw [h] at heq; cases heq

theorem parseStrBody_char {c : Char} (h1 : ¬c = dquote) (h2 : ¬c = bslash)
    (h3 : ¬c.toNat < 0x20) (r : List Char) :
    parseStrBody (c :: r) = (parseStrBody r).map (fun p => (c :: p.1, p.2)) := by
  rw [parseStrBody, if_neg h1, if_neg h2, if_neg h3]

theorem readHex4_hex4chars {n : Nat} (h : n < 0x10000) (r : List Char) :
    readHex4 (hex4chars n ++ r) = some (n, r) := by
  rcases hex4_hex4chars n h r with ⟨a, b, c, d, he, hv⟩
  rw [he]
  show readHex4 (a :: b :: c :: d :: r) = some (n, r)
  rw [readHex4, hv]
  rfl

theorem parseEsc1_u {n : Nat} (hlo : n < 0xD800 ∨ 0xDFFF < n) (hhi : n < 0x10000)
    (r : List Char) :
    parseEsc1 ('u' :: (hex4chars n ++ r)) = some (Char.ofNat n, r) := by
  rw [parseEsc1]
  rw [if_neg (by decide)]
  rw [if_neg (by decide)]
  rw [if_neg (by decide)]
  rw [if_neg (by decide)]
  rw [if_neg (by decide)]
  rw [if_neg (by decide)]
  rw [if_neg (by decide)]
  rw [if_neg (by decide)]
  rw [if_pos rfl]
  rw [readHex4_hex4chars hhi]
  simp only []
  rw [if_neg (by omega), if_neg (by omega)]

theorem parseEsc1_surrogates {n : Nat} (h1 : 0x10000 ≤ n) (h2 : n < 0x110000)
    (r : List Char) :
    parseEsc1 ('u' :: (hex4chars (0xD800 + (n - 0x10000) / 0x400)
      ++ bslash :: 'u' :: (hex4chars (0xDC00 + (n - 0x10000) % 0x400) ++ r)))
      = some (Char.ofNat n, r) := by
  rw [parseEsc1]
  rw [if_neg (by decide)]
  rw [if_neg (by decide)]
  rw [if_neg (by decide)]
  rw [if_neg (by decide)]
  rw [if_neg (by decide)]
  rw [if_neg (by decide)]
  rw [if_neg (by decide)]
  rw [if_neg (by decide)]
  rw [if_pos rfl]
  have hd : (n - 0x10000) / 0x400 < 0x400 := by omega
  rw [readHex4_hex4chars (by omega)]
  simp only []
  rw [if_pos (by omega)]
  rw [if_pos (And.intro trivial trivial)]
  rw [readHex4_hex4chars (by omega)]
  simp only []
  rw [if_pos (by omega)]
  have hv : 0x10000 + (0xD800 + (n - 0x10000) / 0x400 - 0xD800) * 0x400
      + (0xDC00 + (n - 0x10000) % 0x400 - 0xDC00) = n := by omega
  rw [hv]

theorem escStep (c : Char) (rest : List Char) :
    parseStrBody (escapeChar c ++ rest) = (parseStrBody rest).map (fun p => (c :: p.1, p.2)) := by
  have hv := charBounds c
  unfold escapeChar
  by_cases q1 : c = dquote
  · rw [if_pos q1]
    have he : parseEsc1 (dquote :: rest) = some (dquote, rest) := by
      rw [parseEsc1, if_pos rfl]
    show parseStrBody (bslash :: dquote :: rest) = _
    rw [parseStrBody_esc he, q1]
  rw [if_neg q1]
  by_cases q2 : c = bslash
  · rw [if_pos q2]
    have he : parseEsc1 (bslash :: rest) = some (bslash, rest) := by
      rw [parseEsc1, if_neg (by decide), if_pos rfl]
    show parseStrBody (bslash :: bslash :: rest) = _
    rw [parseStrBody_esc he, q2]
  rw [if_neg q2]
  by_cases q3 : c.toNat = 8
  · rw [if_pos q3]
    have he : parseEsc1 ('b' :: rest) = some (Char.ofNat 8, rest) := by
      rw [parseEsc1, if_neg (by decide), if_neg (by decide), if_neg (by decide), if_pos rfl]
    show parseStrBody (bslash :: 'b' :: rest) = _
    rw [parseStrBody_esc he, char_toNat_inj (Char.ofNat 8) c (by rw [toNat_ofNat_lt 8 (by omega)]; omega)]
  rw [if_neg q3]
  by_cases q4 : c.toNat = 9
  · rw [if_pos q4]
    have he : parseEsc1 ('t' :: rest) = some (Char.ofNat 9, rest) := by
      rw [parseEsc1, if_neg (by decide), if_neg (by decide), if_neg (by decide),
        if_neg (by decide), if_neg (by decide), if_neg (by decide), if_neg (by decide),
        if_pos rfl]
    show parseStrBody (bslash :: 't' :: rest) = _
    rw [parseStrBody_esc he, char_toNat_inj (Char.ofNat 9) c (by rw [toNat_ofNat_lt 9 (by omega)]; omega)]
  rw [if_neg q4]
  by_cases q5 : c.toNat = 10
  · rw [if_pos q5]
    have he : parseEsc1 ('n' :: rest) = some (Char.ofNat 10, rest) := by
      rw [parseEsc1, if_neg (by decide), if_neg (by decide), if_neg (by decide),
        if_neg (by decide), if_neg (by decide), if_pos rfl]
    show parseStrBody (bslash :: 'n' :: rest) = _
    rw [parseStrBody_esc he, char_toNat_inj (Char.ofNat 10) c (by rw [toNat_ofNat_lt 10 (by omega)]; omega)]
  rw [if_neg q5]
  by_cases q6 : c.toNat = 12
  · rw [if_pos q6]
    have he : parseEsc1 ('f' :: rest) = some (Char.ofNat 12, rest) := by
      rw [parseEsc1, if_neg (by decide), if_neg (by decide), if_neg (by decide),
        if_neg (by decide), if_pos rfl]
    show parseStrBody (bslash :: 'f' :: rest) = _
    rw [parseStrBody_esc he, char_toNat_inj (Char.ofNat 12) c (by rw [toNat_ofNat_lt 12 (by omega)]; omega)]
  rw [if_neg q6]
  by_cases q7 : c.toNat = 13
  · rw [if_pos q7]
    have he : parseEsc1 ('r' :: rest) = some (Char.ofNat 13, rest) := by
      rw [parseEsc1, if_neg (by decide), if_neg (by decide), if_neg (by decide),
        if_neg (by decide), if_neg (by decide), if_neg (by decide), if_pos rfl]
    show parseStrBody (bslash :: 'r' :: rest) = _
    rw [parseStrBody_esc he, char_toNat_inj (Char.ofNat 13) c (by rw [toNat_ofNat_lt 13 (by omega)]; omega)]
  rw [if_neg q7]
  by_cases q8 : c.toNat < 0x20
  · rw [if_pos q8]
    show parseStrBody (bslash :: ('u' :: (hex4chars c.toNat ++ rest))) = _
    rw [parseStrBody_esc (parseEsc1_u (Or.inl (by omega)) (by omega) rest), Char.ofNat_toNat]
  rw [if_neg q8]
  by_cases q9 : c.toNat < 0x7F
  · rw [if_pos q9]
    show parseStrBody (c :: rest) = _
    exact parseStrBody_char q1 q2 q8 rest
  rw [if_neg q9]
  by_cases q10 : c.toNat < 0x10000
  · rw [if_pos q10]
    have hlo : c.toNat < 0xD800 ∨ 0xDFFF < c.toNat := by
      rcases hv with h | h
      · exact Or.inl h
      · exact Or.inr (by omega)
    show parseStrBody (bslash :: ('u' :: (hex4chars c.toNat ++ rest))) = _
    rw [parseStrBody_esc (parseEsc1_u hlo q10 rest), Char.ofNat_toNat]
  rw [if_neg q10]
  show parseStrBody (bslash :: ('u' :: (hex4chars (0xD800 + (c.toNat - 0x10000) / 0x400)
    ++ (bslash :: ('u' :: (hex4chars (0xDC00 + (c.toNat - 0x10000) % 0x400) ++ rest)))))) = _
  rw [parseStrBody_esc (parseEsc1_surrogates (by omega) (by omega) rest), Char.ofNat_toNat]

theorem parseStrBody_print (s : List Char) (rest : List Char) :
    parseStrBody (s.flatMap escapeChar ++ dquote :: rest) = some (s, rest) := by
  induction s with
  | nil => simpa using parseStrBody_close rest
  | cons c t ih =>
    rw [List.flatMap_cons, List.append_assoc, escStep, ih]
    rfl

/-! ## Number round trip -/

theorem hexDigit_toNat (m : Nat) (h : m < 10) : (hexDigit m).toNat = 48 + m := by
  interval_cases m <;> decide

theorem isDigitC_hexDigit (m : Nat) (h : m < 10) : isDigitC (hexDigit m) = true := by
  interval_cases m <;> decide

theorem natToDec_digits (n : Nat) : ∀ c ∈ natToDec n, isDigitC c = true := by
  induction n using natToDec.induct with
  | case1 n h =>
    intro c hc
    rw [natToDec, dif_pos h] at hc
    simp at hc
    subst hc
    exact isDigitC_hexDigit n h
  | case2 n h ih =>
    intro c hc
    rw [natToDec, dif_neg h] at hc
    rcases List.mem_append.mp hc with h2 | h2
    · exact ih c h2
    · simp at h2
      subst h2
      exact isDigitC_hexDigit _ (Nat.mod_lt _ (by omega))

theorem natToDec_ne_nil (n : Nat) : natToDec n ≠ [] := by
  induction n using natToDec.induct with
  | case1 n h =>
    rw [natToDec, dif_pos h]
    simp
  | case2 n h ih =>
    rw [natToDec, dif_neg h]
    simp

theorem decValue_append_digit (l : List Char) (d : Char) :
    decValue (l ++ [d]) = 10 * decValue l + (d.toNat - 48) := by
  unfold decValue
  rw [List.foldl_append]
  rfl

theorem decValue_natToDec (n : Nat) : decValue (natToDec n) = n := by
  induction n using natToDec.induct with
  | case1 n h =>
    rw [natToDec, dif_pos h]
    show decValue ([] ++ [hexDigit n]) = n
    rw [decValue_append_digit, hexDigit_toNat n h]
    unfold decValue
    simp
  | case2 n h ih =>
    rw [natToDec, dif_neg h]
    rw [decValue_append_digit, ih, hexDigit_toNat _ (Nat.mod_lt _ (by omega))]
    omega

theorem natToDec_head_ne_zero (n : Nat) (hn : 1 ≤ n) :
    ∀ c cs, natToDec n = c :: cs → ¬c = '0' := by
  induction n using natToDec.induct with
  | case1 n h =>
    intro c cs hc
    rw [natToDec, dif_pos h] at hc
    have hc1 : c = hexDigit n := by
      have := congrArg (fun l => l.head?) hc
      simpa using this.symm
    subst hc1
    interval_cases n
    all_goals first
      | omega
      | decide
  | case2 n h ih =>
    intro c cs hc
    rw [natToDec, dif_neg h] at hc
    rcases he : natToDec (n / 10) with _ | ⟨c2, cs2⟩
    · exact absurd he (natToDec_ne_nil _)
    · rw [he] at hc
      have hc2 : c = c2 := by
        have := congrArg (fun l => l.head?) hc
        simpa using this.symm
      subst hc2
      exact ih (by omega) c cs2 he


theorem takeWhile_all_append {p : Char → Bool} {l : List Char} (r : List Char)
    (h : ∀ c ∈ l, p c = true) :
    (l ++ r).takeWhile p = l ++ r.takeWhile p ∧ (l ++ r).dropWhile p = r.dropWhile p := by
  induction l with
  | nil => simp
  | cons c t ih =>
    have hc : p c = true := h c (by simp)
    have ht : ∀ x ∈ t, p x = true := fun x hx => h x (by simp [hx])
    rcases ih ht with ⟨h1, h2⟩
    constructor
    · simp only [List.cons_append, List.takeWhile_cons, hc, if_true, h1]
    · simp only [List.cons_append, List.dropWhile_cons, hc, if_true, h2]

theorem takeWhile_boundary {r : List Char} (h : numBoundary r = true) :
    r.takeWhile isDigitC = [] ∧ r.dropWhile isDigitC = r := by
  cases r with
  | nil => simp
  | cons c t =>
    simp only [numBoundary, Bool.not_eq_true', Bool.or_eq_false_iff] at h
    constructor
    · simp [List.takeWhile_cons, h.1.1.1]
    · simp [List.dropWhile_cons, h.1.1.1]

theorem intGuard_boundary (n : Nat) {r : List Char} (h : numBoundary r = true) :
    intGuard n r = some (n, r) := by
  cases r with
  | nil => rfl
  | cons c t =>
    simp only [numBoundary, Bool.not_eq_true', Bool.or_eq_false_iff] at h
    simp only [intGuard]
    rw [if_neg (by simp [h.1.1.2, h.1.2, h.2])]

theorem isDigitC_ne_special {c : Char} (h : isDigitC c = true) :
    ¬c = '0' → 49 ≤ c.toNat ∧ c.toNat ≤ 57 := by
  intro h0
  simp only [isDigitC, Bool.and_eq_true, decide_eq_true_eq] at h
  constructor
  · rcases Nat.lt_or_ge c.toNat 49 with hlt | hge
    · exfalso
      apply h0
      apply char_toNat_inj
      have : c.toNat = 48 := by omega
      rw [this]
      rfl
    · exact hge
  · exact h.2

theorem parseNatNum_natToDec (n : Nat) {rest : List Char} (hb : numBoundary rest = true) :
    parseNatNum (natToDec n ++ rest) = some (n, rest) := by
  rcases Nat.eq_zero_or_pos n with rfl | hpos
  · have h0 : natToDec 0 = ['0'] := by rw [natToDec, dif_pos (by omega)]; rfl
    rw [h0]
    show parseNatNum ('0' :: rest) = some (0, rest)
    rw [parseNatNum, if_pos rfl]
    exact intGuard_boundary 0 hb
  · rcases he : natToDec n with _ | ⟨c, cs⟩
    · exact absurd he (natToDec_ne_nil n)
    have hdig : isDigitC c = true := natToDec_digits n c (by rw [he]; simp)
    have hall : ∀ x ∈ natToDec n, isDigitC x = true := natToDec_digits n
    have h0 : ¬c = '0' := natToDec_head_ne_zero n hpos c cs he
    show parseNatNum (c :: (cs ++ rest)) = some (n, rest)
    rw [parseNatNum, if_neg h0, if_pos hdig]
    have hallc : ∀ x ∈ c :: cs, isDigitC x = true := by rw [← he]; exact hall
    have htk := takeWhile_all_append rest hallc
    have hbd := takeWhile_boundary hb
    show intGuard (decValue ((c :: cs ++ rest).takeWhile isDigitC))
        ((c :: cs ++ rest).dropWhile isDigitC) = some (n, rest)
    rw [htk.1, htk.2, hbd.1, hbd.2, List.append_nil, ← he, decValue_natToDec]
    exact intGuard_boundary n hb

theorem digit_head_not_minus {c : Char} (h : isDigitC c = true) : ¬c = '-' := by
  intro he
  subst he
  simp [isDigitC] at h

theorem parseNumber_intToDec (i : Int) {rest : List Char} (hb : numBoundary rest = true) :
    parseNumber (intToDec i ++ rest) = some (.num i, rest) := by
  cases i with
  | ofNat m =>
    show parseNumber (natToDec m ++ rest) = some (.num (Int.ofNat m), rest)
    rcases he : natToDec m with _ | ⟨c, cs⟩
    · exact absurd he (natToDec_ne_nil m)
    have hdig : isDigitC c = true := natToDec_digits m c (by rw [he]; simp)
    show parseNumber (c :: (cs ++ rest)) = some (.num (Int.ofNat m), rest)
    rw [parseNumber, if_neg (digit_head_not_minus hdig)]
    have := parseNatNum_natToDec m hb
    rw [he] at this
    show (parseNatNum (c :: (cs ++ rest))).map (fun p => (Json.num ((p.1 : Int)), p.2))
        = some (.num (Int.ofNat m), rest)
    rw [show c :: (cs ++ rest) = (c :: cs) ++ rest from rfl, this]
    rfl
  | negSucc m =>
    show parseNumber ('-' :: (natToDec (m + 1) ++ rest)) = some (.num (Int.negSucc m), rest)
    rw [parseNumber, if_pos rfl, parseNatNum_natToDec (m + 1) hb]
    show some (Json.num (-((m + 1 : Nat) : Int)), rest) = some (Json.num (Int.negSucc m), rest)
    have hval : -((m + 1 : Nat) : Int) = Int.negSucc m := by
      rw [Int.negSucc_eq]
      simp
    rw [hval]

/-! ## Print/parse round trip for values -/



theorem isDigitC_toNat {c : Char} (h : isDigitC c = true) :
    48 ≤ c.toNat ∧ c.toNat ≤ 57 := by
  simp only [isDigitC, Bool.and_eq_true, decide_eq_true_eq] at h
  exact h

theorem char_ne_of_toNat {c d : Char} (h : ¬c.toNat = d.toNat) : ¬c = d :=
  fun he => h (congrArg Char.toNat he)

theorem digit_not_ws {c : Char} (h : isDigitC c = true) : isWsChar c = false := by
  have hb := isDigitC_toNat h
  simp only [isWsChar, Bool.or_eq_false_iff, decide_eq_false_iff_not]
  refine ⟨⟨⟨?_, ?_⟩, ?_⟩, ?_⟩
  all_goals exact char_ne_of_toNat (by simp; omega)

theorem pvrt_null : PVRT .null := by
  intro fuel rest hf _
  obtain ⟨f, rfl⟩ : ∃ f, fuel = f + 1 := ⟨fuel - 1, by simp [fuelNeed] at hf; omega⟩
  rfl

theorem pvrt_bool (b : Bool) : PVRT (.bool b) := by
  intro fuel rest hf _
  obtain ⟨f, rfl⟩ : ∃ f, fuel = f + 1 := ⟨fuel - 1, by simp [fuelNeed] at hf; omega⟩
  cases b <;> rfl

theorem parseVal_number (f : Nat) {c : Char} (r : List Char)
    (hws : isWsChar c = false)
    (h1 : ¬c = 'n') (h2 : ¬c = 't') (h3 : ¬c = 'f') (h4 : ¬c = dquote)
    (h5 : ¬c = '[') (h6 : ¬c = lbrace) (h7 : (c = '-' || isDigitC c) = true) :
    parseVal (f + 1) (c :: r) = parseNumber (c :: r) := by
  simp only [parseVal]
  rw [skipWs_not_ws hws]
  simp only []
  rw [if_neg h1, if_neg h2, if_neg h3, if_neg h4, if_neg h5, if_neg h6, if_pos h7]

theorem parseVal_strStep (f : Nat) (r : List Char) :
    parseVal (f + 1) (dquote :: r)
      = (parseStrBody r).map (fun p => (Json.str (String.mk p.1), p.2)) := by
  simp only [parseVal]
  rw [skipWs_not_ws (by decide)]
  simp +decide

theorem parseVal_arrStep (f : Nat) {r : List Char} {d : Char} {r2 : List Char}
    (hsk : skipWs r = d :: r2) (hne : ¬d = ']') :
    parseVal (f + 1) ('[' :: r)
      = (parseElems f (d :: r2)).map (fun p => (Json.arr p.1, p.2)) := by
  simp only [parseVal]
  rw [skipWs_not_ws (by decide)]
  simp +decide [hsk, hne]

theorem parseVal_objStep (f : Nat) {r : List Char} {d : Char} {r2 : List Char}
    (hsk : skipWs r = d :: r2) (hne : ¬d = rbrace) :
    parseVal (f + 1) (lbrace :: r)
      = (parseObjMembers f (d :: r2)).map (fun p => (Json.obj (dedupeLW p.1), p.2)) := by
  simp only [parseVal]
  rw [skipWs_not_ws (by decide)]
  simp +decide [hsk, hne]

theorem parseElems_comma {g : Nat} {cs : List Char} {v : Json} {r r2 : List Char}
    (hv : parseVal g cs = some (v, r)) (hsk : skipWs r = ',' :: r2) :
    parseElems (g + 1) cs = (parseElems g r2).map (fun p => (v :: p.1, p.2)) := by
  simp only [parseElems]
  simp +decide [hv, hsk]

theorem parseElems_close {g : Nat} {cs : List Char} {v : Json} {r r2 : List Char}
    (hv : parseVal g cs = some (v, r)) (hsk : skipWs r = ']' :: r2) :
    parseElems (g + 1) cs = some ([v], r2) := by
  simp only [parseElems]
  simp +decide [hv, hsk]

theorem parseObjM_comma {g : Nat} {r : List Char} {k : List Char} {r2 r3 : List Char}
    {v : Json} {r4 r5 : List Char}
    (hstr : parseStrBody r = some (k, r2)) (hsk2 : skipWs r2 = ':' :: r3)
    (hval : parseVal g r3 = some (v, r4)) (hsk4 : skipWs r4 = ',' :: r5) :
    parseObjMembers (g + 1) (dquote :: r)
      = (parseObjMembers g (skipWs r5)).map (fun p => ((String.mk k, v) :: p.1, p.2)) := by
  simp only [parseObjMembers]
  simp +decide [hstr, hsk2, hval, hsk4]

theorem parseObjM_close {g : Nat} {r : List Char} {k : List Char} {r2 r3 : List Char}
    {v : Json} {r4 r5 : List Char}
    (hstr : parseStrBody r = some (k, r2)) (hsk2 : skipWs r2 = ':' :: r3)
    (hval : parseVal g r3 = some (v, r4)) (hsk4 : skipWs r4 = rbrace :: r5) :
    parseObjMembers (g + 1) (dquote :: r) = some ([(String.mk k, v)], r5) := by
  simp only [parseObjMembers]
  simp +decide [hstr, hsk2, hval, hsk4]

theorem pvrt_str (s : String) : PVRT (.str s) := by
  intro fuel rest hf _
  obtain ⟨f, rfl⟩ : ∃ f, fuel = f + 1 := ⟨fuel - 1, by simp [fuelNeed] at hf; omega⟩
  have hshape : printVal (.str s) ++ rest
      = dquote :: (s.data.flatMap escapeChar ++ dquote :: rest) := by
    simp [printVal, printStr]
  rw [hshape, parseVal_strStep, parseStrBody_print]
  rfl

theorem pvrt_num (n : Int) : PVRT (.num n) := by
  intro fuel rest hf hb
  obtain ⟨f, rfl⟩ : ∃ f, fuel = f + 1 := ⟨fuel - 1, by simp [fuelNeed] at hf; omega⟩
  cases n with
  | ofNat m =>
    rcases he : natToDec m with _ | ⟨c, cs⟩
    · exact absurd he (natToDec_ne_nil m)
    have hdig : isDigitC c = true := natToDec_digits m c (by rw [he]; simp)
    have htn := isDigitC_toNat hdig
    show parseVal (f + 1) (natToDec m ++ rest) = some (pcanon (.num (Int.ofNat m)), rest)
    rw [he]
    show parseVal (f + 1) (c :: (cs ++ rest)) = some (.num (Int.ofNat m), rest)
    rw [parseVal_number f _ (digit_not_ws hdig)
      (char_ne_of_toNat (by have hx : ('n' : Char).toNat = 110 := rfl; omega))
      (char_ne_of_toNat (by have hx : ('t' : Char).toNat = 116 := rfl; omega))
      (char_ne_of_toNat (by have hx : ('f' : Char).toNat = 102 := rfl; omega))
      (char_ne_of_toNat (by have hx : dquote.toNat = 34 := rfl; omega))
      (char_ne_of_toNat (by have hx : ('[' : Char).toNat = 91 := rfl; omega))
      (char_ne_of_toNat (by have hx : lbrace.toNat = 123 := rfl; omega))
      (by simp [hdig])]
    show parseNumber ((c :: cs) ++ rest) = some (.num (Int.ofNat m), rest)
    rw [← he]
    exact parseNumber_intToDec (Int.ofNat m) hb
  | negSucc m =>
    show parseVal (f + 1) ('-' :: (natToDec (m + 1) ++ rest))
      = some (.num (Int.negSucc m), rest)
    rw [parseVal_number f _ (by decide) (by decide) (by decide) (by decide) (by decide)
      (by decide) (by decide) (by decide)]
    exact parseNumber_intToDec (Int.negSucc m) hb

theorem pvrt_arr_nil : PVRT (.arr []) := by
  intro fuel rest hf _
  obtain ⟨f, rfl⟩ : ∃ f, fuel = f + 1 := ⟨fuel - 1, by simp [fuelNeed] at hf; omega⟩
  rfl

theorem pcanon_obj_nil : pcanon (Json.obj []) = Json.obj [] := by
  simp [pcanon, pcanonMembers, dedupeLW]

theorem pvrt_obj_nil : PVRT (.obj []) := by
  intro fuel rest hf _
  obtain ⟨f, rfl⟩ : ∃ f, fuel = f + 1 := ⟨fuel - 1, by simp [fuelNeed] at hf; omega⟩
  show parseVal (f + 1) (printVal (Json.obj []) ++ rest) = some (pcanon (Json.obj []), rest)
  rw [pcanon_obj_nil]
  rfl

theorem rte (xs : List Json) : ∀ x : Json, PVRT x → (∀ y ∈ xs, PVRT y) →
    ∀ g rest, fuelNeedElems (x :: xs) ≤ g → numBoundary rest = true →
    parseElems g (printElems (x :: xs) ++ ']' :: rest)
      = some (pcanonList (x :: xs), rest) := by
  induction xs with
  | nil =>
    intro x hx _ g rest hg hb
    have hg2 : 1 + fuelNeed x ≤ g := by
      have h0 : fuelNeedElems [x] = 1 + max (fuelNeed x) (fuelNeedElems []) := by
        simp [fuelNeedElems]
      rw [h0] at hg
      have h1 : fuelNeedElems ([] : List Json) = 0 := by simp [fuelNeedElems]
      rw [h1] at hg
      simp at hg
      omega
    obtain ⟨g2, rfl⟩ : ∃ g2, g = g2 + 1 := ⟨g - 1, by omega⟩
    have hval := hx g2 (']' :: rest) (by omega) rfl
    show parseElems (g2 + 1) (printVal x ++ ']' :: rest) = some ([pcanon x], rest)
    exact parseElems_close hval (skipWs_not_ws (by decide) rest)
  | cons y ys ih =>
    intro x hx hys g rest hg hb
    have h0 : fuelNeedElems (x :: y :: ys)
        = 1 + max (fuelNeed x) (fuelNeedElems (y :: ys)) := by
      conv_lhs => rw [fuelNeedElems]
    rw [h0] at hg
    obtain ⟨g2, rfl⟩ : ∃ g2, g = g2 + 1 := ⟨g - 1, by omega⟩
    have hmax : max (fuelNeed x) (fuelNeedElems (y :: ys)) ≤ g2 := by omega
    have hfx : fuelNeed x ≤ g2 := le_trans (le_max_left _ _) hmax
    have hfys : fuelNeedElems (y :: ys) ≤ g2 := le_trans (le_max_right _ _) hmax
    have hshape : printElems (x :: y :: ys) ++ ']' :: rest
        = printVal x ++ (',' :: (printElems (y :: ys) ++ ']' :: rest)) := by
      conv_lhs => rw [printElems]
      simp
    rw [hshape]
    have hval := hx g2 (',' :: (printElems (y :: ys) ++ ']' :: rest)) hfx rfl
    rw [parseElems_comma hval (skipWs_not_ws (by decide) _)]
    rw [ih y (hys y (by simp)) (fun z hz => hys z (by simp [hz])) g2 rest hfys hb]
    have hp : pcanonList (x :: y :: ys) = pcanon x :: pcanonList (y :: ys) := by
      conv_lhs => rw [pcanonList]
    rw [hp]
    rfl

theorem rtm (ms : List (String × Json)) : ∀ k : String, ∀ v : Json, PVRT v →
    (∀ kv ∈ ms, PVRT kv.2) →
    ∀ g rest, fuelNeedMembers ((k, v) :: ms) ≤ g → numBoundary rest = true →
    parseObjMembers g (printMembers ((k, v) :: ms) ++ rbrace :: rest)
      = some (pcanonMembers ((k, v) :: ms), rest) := by
  induction ms with
  | nil =>
    intro k v hv _ g rest hg hb
    have hg2 : 1 + fuelNeed v ≤ g := by
      have h0 : fuelNeedMembers [(k, v)]
          = 1 + max (fuelNeed v) (fuelNeedMembers []) := by
        simp [fuelNeedMembers]
      rw [h0] at hg
      have h1 : fuelNeedMembers ([] : List (String × Json)) = 0 := by simp [fuelNeedMembers]
      rw [h1] at hg
      simp at hg
      omega
    obtain ⟨g2, rfl⟩ : ∃ g2, g = g2 + 1 := ⟨g - 1, by omega⟩
    have hshape : printMembers [(k, v)] ++ rbrace :: rest
        = dquote :: (k.data.flatMap escapeChar
            ++ dquote :: (':' :: (printVal v ++ rbrace :: rest))) := by
      simp [printMembers, printStr, List.append_assoc]
    rw [hshape]
    have hval := hv g2 (rbrace :: rest) (by omega) rfl
    rw [parseObjM_close (parseStrBody_print k.data _) (skipWs_not_ws (by decide) _)
      hval (skipWs_not_ws (by decide) _)]
    rfl
  | cons m ms2 ih =>
    intro k v hv hms g rest hg hb
    have h0 : fuelNeedMembers ((k, v) :: m :: ms2)
        = 1 + max (fuelNeed v) (fuelNeedMembers (m :: ms2)) := by
      conv_lhs => rw [fuelNeedMembers]
    rw [h0] at hg
    obtain ⟨g2, rfl⟩ : ∃ g2, g = g2 + 1 := ⟨g - 1, by omega⟩
    have hmax : max (fuelNeed v) (fuelNeedMembers (m :: ms2)) ≤ g2 := by omega
    have hfv : fuelNeed v ≤ g2 := le_trans (le_max_left _ _) hmax
    have hfms : fuelNeedMembers (m :: ms2) ≤ g2 := le_trans (le_max_right _ _) hmax
    obtain ⟨k2, v2⟩ := m
    have hshape : printMembers ((k, v) :: (k2, v2) :: ms2) ++ rbrace :: rest
        = dquote :: (k.data.flatMap escapeChar
            ++ dquote :: (':' :: (printVal v
              ++ ',' :: (printMembers ((k2, v2) :: ms2) ++ rbrace :: rest)))) := by
      conv_lhs => rw [printMembers]
      simp [printStr, List.append_assoc]
    rw [hshape]
    have hval := hv g2 (',' :: (printMembers ((k2, v2) :: ms2) ++ rbrace :: rest)) hfv rfl
    rw [parseObjM_comma (parseStrBody_print k.data _) (skipWs_not_ws (by decide) _)
      hval (skipWs_not_ws (by decide) _)]
    have hshape2 : printMembers ((k2, v2) :: ms2) ++ rbrace :: rest
        = dquote :: (k2.data.flatMap escapeChar
            ++ dquote :: (':' :: (printVal v2
              ++ (match ms2 with
                  | [] => rbrace :: rest
                  | m2 :: ms3 => ',' :: (printMembers (m2 :: ms3) ++ rbrace :: rest))))) := by
      cases ms2 with
      | nil => simp [printMembers, printStr, List.append_assoc]
      | cons m2 ms3 =>
        conv_lhs => rw [printMembers]
        simp [printStr, List.append_assoc]
    have hsk5 : skipWs (printMembers ((k2, v2) :: ms2) ++ rbrace :: rest)
        = printMembers ((k2, v2) :: ms2) ++ rbrace :: rest := by
      rw [hshape2]
      exact skipWs_not_ws (by decide) _
    rw [hsk5]
    rw [ih k2 v2 (hms (k2, v2) (by simp)) (fun z hz => hms z (by simp [hz])) g2 rest hfms hb]
    have hp : pcanonMembers ((k, v) :: (k2, v2) :: ms2)
        = (k, pcanon v) :: pcanonMembers ((k2, v2) :: ms2) := by
      conv_lhs => rw [pcanonMembers]
    rw [hp]
    rfl

theorem printVal_head (v : Json) :
    ∃ c cs, printVal v = c :: cs ∧ isWsChar c = false ∧ ¬c = ']' := by
  cases v with
  | null => exact ⟨'n', _, rfl, by decide, by decide⟩
  | bool b =>
    cases b with
    | true => exact ⟨'t', _, rfl, by decide, by decide⟩
    | false => exact ⟨'f', _, rfl, by decide, by decide⟩
  | num n =>
    cases n with
    | ofNat m =>
      rcases he : natToDec m with _ | ⟨c, cs⟩
      · exact absurd he (natToDec_ne_nil m)
      have hdig : isDigitC c = true := natToDec_digits m c (by rw [he]; simp)
      have htn := isDigitC_toNat hdig
      refine ⟨c, cs, ?_, digit_not_ws hdig, ?_⟩
      · show intToDec (Int.ofNat m) = c :: cs
        rw [show intToDec (Int.ofNat m) = natToDec m from rfl, he]
      · exact char_ne_of_toNat (by have hx : (']' : Char).toNat = 93 := rfl; omega)
    | negSucc m => exact ⟨'-', _, rfl, by decide, by decide⟩
  | str s => exact ⟨dquote, _, rfl, by decide, by decide⟩
  | arr xs =>
    cases xs with
    | nil => exact ⟨'[', _, rfl, by decide, by decide⟩
    | cons x t => exact ⟨'[', _, rfl, by decide, by decide⟩
  | obj ms =>
    cases ms with
    | nil => exact ⟨lbrace, _, rfl, by decide, by decide⟩
    | cons m t => exact ⟨lbrace, _, rfl, by decide, by decide⟩

theorem pvrt_arr_cons (x : Json) (xs : List Json) (hx : PVRT x)
    (hxs : ∀ y ∈ xs, PVRT y) : PVRT (.arr (x :: xs)) := by
  intro fuel rest hf hb
  have h0 : fuelNeed (.arr (x :: xs)) = 1 + fuelNeedElems (x :: xs) := by
    conv_lhs => rw [fuelNeed]
  rw [h0] at hf
  obtain ⟨f2, rfl⟩ : ∃ f2, fuel = f2 + 1 := ⟨fuel - 1, by omega⟩
  have hshape : printVal (.arr (x :: xs)) ++ rest
      = '[' :: (printElems (x :: xs) ++ ']' :: rest) := by
    conv_lhs => rw [printVal]
    simp
  rw [hshape]
  rcases printVal_head x with ⟨c, cs, hpc, hws, hnc⟩
  have hpe : ∃ tail, printElems (x :: xs) ++ ']' :: rest = c :: tail := by
    cases xs with
    | nil =>
      refine ⟨cs ++ ']' :: rest, ?_⟩
      show printVal x ++ ']' :: rest = c :: (cs ++ ']' :: rest)
      rw [hpc]
      rfl
    | cons y ys =>
      refine ⟨cs ++ ',' :: printElems (y :: ys) ++ ']' :: rest, ?_⟩
      conv_lhs => rw [printElems]
      rw [hpc]
      simp
  obtain ⟨tail, htail⟩ := hpe
  have hsk : skipWs (printElems (x :: xs) ++ ']' :: rest) = c :: tail := by
    rw [htail]
    exact skipWs_not_ws hws tail
  rw [parseVal_arrStep f2 hsk hnc, ← htail,
    rte xs x hx hxs f2 rest (by omega) hb]
  have hp : pcanon (.arr (x :: xs)) = .arr (pcanonList (x :: xs)) := by
    conv_rhs => rw [pcanonList]
    rfl
  rw [hp]
  rfl

theorem pvrt_obj_cons (k : String) (v : Json) (ms : List (String × Json)) (hv : PVRT v)
    (hms : ∀ kv ∈ ms, PVRT kv.2) : PVRT (.obj ((k, v) :: ms)) := by
  intro fuel rest hf hb
  have h0 : fuelNeed (.obj ((k, v) :: ms)) = 1 + fuelNeedMembers ((k, v) :: ms) := by
    conv_lhs => rw [fuelNeed]
  rw [h0] at hf
  obtain ⟨f2, rfl⟩ : ∃ f2, fuel = f2 + 1 := ⟨fuel - 1, by omega⟩
  have hshape : printVal (.obj ((k, v) :: ms)) ++ rest
      = lbrace :: (printMembers ((k, v) :: ms) ++ rbrace :: rest) := by
    conv_lhs => rw [printVal]
    simp
  rw [hshape]
  have hhead : ∃ tail, printMembers ((k, v) :: ms) ++ rbrace :: rest = dquote :: tail := by
    cases ms with
    | nil =>
      refine ⟨k.data.flatMap escapeChar
        ++ dquote :: (':' :: (printVal v ++ rbrace :: rest)), ?_⟩
      simp [printMembers, printStr, List.append_assoc]
    | cons m2 ms2 =>
      refine ⟨k.data.flatMap escapeChar
        ++ dquote :: (':' :: (printVal v
          ++ ',' :: (printMembers (m2 :: ms2) ++ rbrace :: rest))), ?_⟩
      conv_lhs => rw [printMembers]
      simp [printStr, List.append_assoc]
  obtain ⟨tail, htail⟩ := hhead
  have hsk : skipWs (printMembers ((k, v) :: ms) ++ rbrace :: rest) = dquote :: tail := by
    rw [htail]
    exact skipWs_not_ws (by decide) tail
  rw [parseVal_objStep f2 hsk (by decide), ← htail,
    rtm ms k v hv hms f2 rest (by omega) hb]
  rfl

/-- Round trip: parsing the printed form of any value yields its
duplicate-key-collapsed form, leaving any suffix intact. -/
theorem printParse (v : Json) : PVRT v := by
  induction v using jsonInd with
  | hnull => exact pvrt_null
  | hbool b => exact pvrt_bool b
  | hnum n => exact pvrt_num n
  | hstr s => exact pvrt_str s
  | harr xs hxs =>
    cases xs with
    | nil => exact pvrt_arr_nil
    | cons x t =>
      exact pvrt_arr_cons x t (hxs x (by simp)) (fun y hy => hxs y (by simp [hy]))
  | hobj ms hms =>
    cases ms with
    | nil => exact pvrt_obj_nil
    | cons m t =>
      exact pvrt_obj_cons m.1 m.2 t (hms m (by simp)) (fun kv hkv => hms kv (by simp [hkv]))

theorem fn_le_elems (xs : List Json) : ∀ x : Json,
    (∀ y ∈ x :: xs, fuelNeed y ≤ (printVal y).length) →
    fuelNeedElems (x :: xs) ≤ 1 + (printElems (x :: xs)).length := by
  induction xs with
  | nil =>
    intro x hall
    have hx := hall x (by simp)
    have h0 : fuelNeedElems [x] = 1 + max (fuelNeed x) (fuelNeedElems []) := by
      simp [fuelNeedElems]
    have h1 : fuelNeedElems ([] : List Json) = 0 := by simp [fuelNeedElems]
    have h2 : printElems [x] = printVal x := by simp [printElems]
    rw [h0, h1, h2]
    simp
    omega
  | cons y ys ih =>
    intro x hall
    have hx := hall x (by simp)
    have hih := ih y (fun z hz => hall z (by simp at hz; rcases hz with h | h <;> simp [h]))
    have h0 : fuelNeedElems (x :: y :: ys)
        = 1 + max (fuelNeed x) (fuelNeedElems (y :: ys)) := by
      conv_lhs => rw [fuelNeedElems]
    have h2 : printElems (x :: y :: ys) = printVal x ++ ',' :: printElems (y :: ys) := by
      conv_lhs => rw [printElems]
    rw [h0, h2]
    have hm : max (fuelNeed x) (fuelNeedElems (y :: ys))
        ≤ (printVal x).length + 1 + (printElems (y :: ys)).length := by
      apply Nat.max_le.mpr
      constructor <;> omega
    simp [List.length_append]
    omega

theorem fn_le_members (ms : List (String × Json)) : ∀ k : String, ∀ v : Json,
    (∀ kv ∈ (k, v) :: ms, fuelNeed kv.2 ≤ (printVal kv.2).length) →
    fuelNeedMembers ((k, v) :: ms) ≤ 1 + (printMembers ((k, v) :: ms)).length := by
  induction ms with
  | nil =>
    intro k v hall
    have hx := hall (k, v) (by simp)
    have h0 : fuelNeedMembers [(k, v)] = 1 + max (fuelNeed v) (fuelNeedMembers []) := by
      simp [fuelNeedMembers]
    have h1 : fuelNeedMembers ([] : List (String × Json)) = 0 := by simp [fuelNeedMembers]
    have h2 : printMembers [(k, v)] = printStr k ++ ':' :: printVal v := by
      simp [printMembers]
    have hx2 : fuelNeed v ≤ (printVal v).length := hx
    rw [h0, h1, h2]
    simp
    omega
  | cons m ms2 ih =>
    intro k v hall
    have hx := hall (k, v) (by simp)
    obtain ⟨k2, v2⟩ := m
    have hih := ih k2 v2 (fun z hz => hall z (by simp at hz; rcases hz with h | h <;> simp [h]))
    have h0 : fuelNeedMembers ((k, v) :: (k2, v2) :: ms2)
        = 1 + max (fuelNeed v) (fuelNeedMembers ((k2, v2) :: ms2)) := by
      conv_lhs => rw [fuelNeedMembers]
    have h2 : printMembers ((k, v) :: (k2, v2) :: ms2)
        = printStr k ++ ':' :: printVal v ++ ',' :: printMembers ((k2, v2) :: ms2) := by
      conv_lhs => rw [printMembers]
    rw [h0, h2]
    have hx2 : fuelNeed v ≤ (printVal v).length := hx
    have hm : max (fuelNeed v) (fuelNeedMembers ((k2, v2) :: ms2))
        ≤ (printVal v).length + 1 + (printMembers ((k2, v2) :: ms2)).length := by
      apply Nat.max_le.mpr
      constructor <;> omega
    simp
    omega

theorem fuelNeed_le_printLength : ∀ v : Json, fuelNeed v ≤ (printVal v).length := by
  intro v
  induction v using jsonInd with
  | hnull => simp [fuelNeed, printVal]
  | hbool b => cases b <;> simp [fuelNeed, printVal]
  | hnum n =>
    have h0 : fuelNeed (.num n) = 1 := by simp [fuelNeed]
    rw [h0]
    cases n with
    | ofNat m =>
      show 1 ≤ (natToDec m).length
      rcases he : natToDec m with _ | ⟨c, cs⟩
      · exact absurd he (natToDec_ne_nil m)
      · simp
    | negSucc m =>
      show 1 ≤ ('-' :: natToDec (m + 1)).length
      simp
  | hstr s =>
    have h0 : fuelNeed (.str s) = 1 := by simp [fuelNeed]
    rw [h0]
    show 1 ≤ (printStr s).length
    simp [printStr]
  | harr xs hxs =>
    cases xs with
    | nil => simp [fuelNeed, printVal]
    | cons x t =>
      have h0 : fuelNeed (.arr (x :: t)) = 1 + fuelNeedElems (x :: t) := by
        conv_lhs => rw [fuelNeed]
      have h2 : printVal (.arr (x :: t)) = '[' :: (printElems (x :: t) ++ [']']) := by
        conv_lhs => rw [printVal]
      have := fn_le_elems t x hxs
      rw [h0, h2]
      simp
      omega
  | hobj ms hms =>
    cases ms with
    | nil => simp [fuelNeed, printVal]
    | cons m t =>
      obtain ⟨k, v⟩ := m
      have h0 : fuelNeed (.obj ((k, v) :: t)) = 1 + fuelNeedMembers ((k, v) :: t) := by
        conv_lhs => rw [fuelNeed]
      have h2 : printVal (.obj ((k, v) :: t))
          = lbrace :: (printMembers ((k, v) :: t) ++ [rbrace]) := by
        conv_lhs => rw [printVal]
      have := fn_le_members t k v hms
      rw [h0, h2]
      simp
      omega

/-- Parsing the model `jsonify` body of a value yields its canonical
form. -/
theorem parseJson_jsonifyBody (v : Json) : parseJson (jsonifyBody v) = some (canon v) := by
  unfold parseJson jsonifyBody
  have hdata : (String.mk (printVal (sortKeysJson v) ++ ['\n'])).data
      = printVal (sortKeysJson v) ++ ['\n'] := rfl
  rw [hdata]
  have hfn := fuelNeed_le_printLength (sortKeysJson v)
  have hrt := printParse (sortKeysJson v)
      ((printVal (sortKeysJson v) ++ ['\n']).length + 1) ['\n']
      (by simp [List.length_append]; omega) rfl
  rw [hrt]
  rfl

/-! ## Canonical form: idempotence -/


theorem pcanonMembers_eq_map (l : List (String × Json)) :
    pcanonMembers l = l.map (fun kv => (kv.1, pcanon kv.2)) := by
  induction l with
  | nil => simp [pcanonMembers]
  | cons m t ih =>
    obtain ⟨k, v⟩ := m
    have h0 : pcanonMembers ((k, v) :: t) = (k, pcanon v) :: pcanonMembers t := by
      conv_lhs => rw [pcanonMembers]
    rw [h0, ih]
    rfl

theorem sortKeysMembers_eq_map (l : List (String × Json)) :
    sortKeysMembers l = l.map (fun kv => (kv.1, sortKeysJson kv.2)) := by
  induction l with
  | nil => simp [sortKeysMembers]
  | cons m t ih =>
    obtain ⟨k, v⟩ := m
    have h0 : sortKeysMembers ((k, v) :: t) = (k, sortKeysJson v) :: sortKeysMembers t := by
      conv_lhs => rw [sortKeysMembers]
    rw [h0, ih]
    rfl

theorem pcanonList_eq_map (l : List Json) : pcanonList l = l.map pcanon := by
  induction l with
  | nil => simp [pcanonList]
  | cons x t ih =>
    have h0 : pcanonList (x :: t) = pcanon x :: pcanonList t := by
      conv_lhs => rw [pcanonList]
    rw [h0, ih]
    rfl

theorem sortKeysList_eq_map (l : List Json) : sortKeysList l = l.map sortKeysJson := by
  induction l with
  | nil => simp [sortKeysList]
  | cons x t ih =>
    have h0 : sortKeysList (x :: t) = sortKeysJson x :: sortKeysList t := by
      conv_lhs => rw [sortKeysList]
    rw [h0, ih]
    rfl

theorem keysOf_map_value (l : List (String × Json)) (f : Json → Json) :
    keysOf (l.map (fun kv => (kv.1, f kv.2))) = keysOf l := by
  induction l with
  | nil => rfl
  | cons m t ih => simp [keysOf] at ih ⊢

theorem lastValueFor_mem (k : String) (v : Json) (r : List (String × Json)) :
    lastValueFor k v r = v ∨ (k, lastValueFor k v r) ∈ r := by
  induction r generalizing v with
  | nil => exact Or.inl rfl
  | cons m t ih =>
    obtain ⟨k2, v2⟩ := m
    rw [lastValueFor]
    by_cases hk : k2 = k
    · rw [if_pos hk]
      rcases ih v2 with h | h
      · right
        rw [h]
        subst hk
        simp
      · exact Or.inr (by simp [h])
    · rw [if_neg hk]
      rcases ih v with h | h
      · exact Or.inl h
      · exact Or.inr (by simp [h])

theorem lastValueFor_not_mem (k : String) (v : Json) (r : List (String × Json))
    (h : k ∉ keysOf r) : lastValueFor k v r = v := by
  induction r generalizing v with
  | nil => rfl
  | cons m t ih =>
    obtain ⟨k2, v2⟩ := m
    simp [keysOf] at h
    rw [lastValueFor, if_neg (by intro he; exact h.1 he.symm)]
    exact ih v (by simp [keysOf, h.2])

theorem dedupeLW_mem : ∀ (l : List (String × Json)), ∀ p ∈ dedupeLW l, p ∈ l := by
  intro l
  induction l using dedupeLW.induct with
  | case1 => simp [dedupeLW]
  | case2 k v rest ih =>
    intro p hp
    rw [dedupeLW] at hp
    rcases List.mem_cons.mp hp with rfl | hp2
    · rcases lastValueFor_mem k v rest with h | h
      · rw [h]; simp
      · exact List.mem_cons_of_mem _ h
    · have := ih p hp2
      exact List.mem_cons_of_mem _ (List.mem_of_mem_filter this)

theorem keysOf_dedupeLW_sublist : ∀ l : List (String × Json),
    List.Sublist (keysOf (dedupeLW l)) (keysOf l) := by
  intro l
  induction l using dedupeLW.induct with
  | case1 => simp [dedupeLW]
  | case2 k v rest ih =>
    rw [dedupeLW]
    show List.Sublist (k :: keysOf (dedupeLW (rest.filter (fun p => p.1 != k))))
      (k :: keysOf rest)
    apply List.Sublist.cons₂
    apply List.Sublist.trans ih
    exact (List.filter_sublist rest).map Prod.fst

theorem keysOf_dedupeLW_nodup : ∀ l : List (String × Json),
    (keysOf (dedupeLW l)).Nodup := by
  intro l
  induction l using dedupeLW.induct with
  | case1 => simp [dedupeLW, keysOf]
  | case2 k v rest ih =>
    rw [dedupeLW]
    show ((k :: keysOf (dedupeLW (rest.filter (fun p => p.1 != k))))).Nodup
    rw [List.nodup_cons]
    refine ⟨?_, ih⟩
    intro hk
    have hsub := keysOf_dedupeLW_sublist (rest.filter (fun p => p.1 != k))
    have hk2 := hsub.mem hk
    rcases List.mem_map.mp hk2 with ⟨b, hb, hbk⟩
    have hbf := (List.mem_filter.mp hb).2
    rw [hbk] at hbf
    simp at hbf

theorem dedupeLW_eq_self : ∀ l : List (String × Json),
    (keysOf l).Nodup → dedupeLW l = l := by
  intro l
  induction l using dedupeLW.induct with
  | case1 => intro _; rw [dedupeLW]
  | case2 k v rest ih =>
    intro hn
    rw [dedupeLW]
    have hk : k ∉ keysOf rest := by
      have := (List.nodup_cons.mp hn).1
      simpa [keysOf] using this
    have hfil : rest.filter (fun p => p.1 != k) = rest := by
      apply List.filter_eq_self.mpr
      intro a ha
      simp only [bne_iff_ne, ne_eq, decide_eq_true_eq]
      intro he
      apply hk
      rw [← he]
      exact List.mem_map_of_mem Prod.fst ha
    rw [lastValueFor_not_mem k v rest hk, hfil]
    rw [hfil] at ih
    rw [ih ((List.nodup_cons.mp hn).2)]

theorem sorted_keys_of_keyLE {l : List (String × Json)} (h : List.Sorted keyLE l) :
    List.Sorted (fun a b : String => strLe a b = true) (keysOf l) :=
  List.Pairwise.map Prod.fst (fun _ _ hab => hab) h

theorem sorted_keyLE_of_keys {l : List (String × Json)}
    (h : List.Sorted (fun a b : String => strLe a b = true) (keysOf l)) : List.Sorted keyLE l :=
  List.Pairwise.of_map Prod.fst (fun _ _ hab => hab) h

theorem sorted_dedupeLW {l : List (String × Json)} (h : List.Sorted keyLE l) :
    List.Sorted keyLE (dedupeLW l) := by
  apply sorted_keyLE_of_keys
  exact List.Pairwise.sublist (keysOf_dedupeLW_sublist l) (sorted_keys_of_keyLE h)

theorem map_fix {α : Type} (f : α → α) :
    ∀ l : List α, (∀ x ∈ l, f x = x) → l.map f = l := by
  intro l
  induction l with
  | nil => intro _; rfl
  | cons x t ih =>
    intro h
    rw [List.map_cons, h x (by simp), ih (fun y hy => h y (by simp [hy]))]

theorem canon_obj (ms : List (String × Json)) :
    canon (.obj ms)
      = .obj (dedupeLW (pcanonMembers (List.insertionSort keyLE (sortKeysMembers ms)))) := by
  unfold canon
  have h1 : sortKeysJson (.obj ms)
      = .obj (List.insertionSort keyLE (sortKeysMembers ms)) := by
    conv_lhs => rw [sortKeysJson]
  rw [h1]
  conv_lhs => rw [pcanon]

theorem canon_arr (xs : List Json) : canon (.arr xs) = .arr (xs.map canon) := by
  unfold canon
  have h1 : sortKeysJson (.arr xs) = .arr (sortKeysList xs) := by
    conv_lhs => rw [sortKeysJson]
  rw [h1]
  have h2 : pcanon (.arr (sortKeysList xs)) = .arr (pcanonList (sortKeysList xs)) := by
    conv_lhs => rw [pcanon]
  rw [h2, pcanonList_eq_map, sortKeysList_eq_map, List.map_map]
  rfl

theorem canon_fix : ∀ v : Json, sortKeysJson (canon v) = canon v ∧ pcanon (canon v) = canon v := by
  intro v
  induction v using jsonInd with
  | hnull =>
    constructor <;> simp [canon, sortKeysJson, pcanon]
  | hbool b =>
    constructor <;> simp [canon, sortKeysJson, pcanon]
  | hnum n =>
    constructor <;> simp [canon, sortKeysJson, pcanon]
  | hstr s =>
    constructor <;> simp [canon, sortKeysJson, pcanon]
  | harr xs hxs =>
    rw [canon_arr]
    have hfix : ∀ y ∈ xs.map canon, sortKeysJson y = y ∧ pcanon y = y := by
      intro y hy
      rcases List.mem_map.mp hy with ⟨x, hx, rfl⟩
      exact hxs x hx
    constructor
    · have h1 : sortKeysJson (.arr (xs.map canon)) = .arr (sortKeysList (xs.map canon)) := by
        conv_lhs => rw [sortKeysJson]
      rw [h1, sortKeysList_eq_map, map_fix _ _ (fun y hy => (hfix y hy).1)]
    · have h1 : pcanon (.arr (xs.map canon)) = .arr (pcanonList (xs.map canon)) := by
        conv_lhs => rw [pcanon]
      rw [h1, pcanonList_eq_map, map_fix _ _ (fun y hy => (hfix y hy).2)]
  | hobj ms hms =>
    rw [canon_obj]
    have hL : pcanonMembers (List.insertionSort keyLE (sortKeysMembers ms))
        = (List.insertionSort keyLE (sortKeysMembers ms)).map
            (fun kv => (kv.1, pcanon kv.2)) := pcanonMembers_eq_map _
    have hsorted0 : List.Sorted keyLE (List.insertionSort keyLE (sortKeysMembers ms)) :=
      List.sorted_insertionSort keyLE _
    have hsortedL : List.Sorted keyLE
        (pcanonMembers (List.insertionSort keyLE (sortKeysMembers ms))) := by
      apply sorted_keyLE_of_keys
      rw [hL, keysOf_map_value]
      exact sorted_keys_of_keyLE hsorted0
    have hsortedD : List.Sorted keyLE
        (dedupeLW (pcanonMembers (List.insertionSort keyLE (sortKeysMembers ms)))) :=
      sorted_dedupeLW hsortedL
    have hnodupD := keysOf_dedupeLW_nodup
        (pcanonMembers (List.insertionSort keyLE (sortKeysMembers ms)))
    have hmemD : ∀ p ∈ dedupeLW (pcanonMembers (List.insertionSort keyLE (sortKeysMembers ms))),
        sortKeysJson p.2 = p.2 ∧ pcanon p.2 = p.2 := by
      intro p hp
      have hp1 := dedupeLW_mem _ p hp
      rw [hL] at hp1
      rcases List.mem_map.mp hp1 with ⟨q, hq, rfl⟩
      have hq1 := (List.Perm.mem_iff (List.perm_insertionSort keyLE _)).mp hq
      rw [sortKeysMembers_eq_map] at hq1
      rcases List.mem_map.mp hq1 with ⟨w, hw, rfl⟩
      exact hms w hw
    constructor
    · have h1 : sortKeysJson
          (.obj (dedupeLW (pcanonMembers (List.insertionSort keyLE (sortKeysMembers ms)))))
          = .obj (List.insertionSort keyLE (sortKeysMembers
              (dedupeLW (pcanonMembers (List.insertionSort keyLE (sortKeysMembers ms)))))) := by
        conv_lhs => rw [sortKeysJson]
      rw [h1, sortKeysMembers_eq_map]
      rw [map_fix _ _ (fun p hp => by
        have := (hmemD p hp).1
        show (p.1, sortKeysJson p.2) = p
        rw [this])]
      rw [List.Sorted.insertionSort_eq hsortedD]
    · have h1 : pcanon
          (.obj (dedupeLW (pcanonMembers (List.insertionSort keyLE (sortKeysMembers ms)))))
          = .obj (dedupeLW (pcanonMembers
              (dedupeLW (pcanonMembers (List.insertionSort keyLE (sortKeysMembers ms)))))) := by
        conv_lhs => rw [pcanon]
      rw [h1, pcanonMembers_eq_map]
      rw [map_fix _ _ (fun p hp => by
        have := (hmemD p hp).2
        show (p.1, pcanon p.2) = p
        rw [this])]
      rw [dedupeLW_eq_self _ hnodupD]

/-- Canonicalisation is idempotent: `canon v` is already canonical. -/
theorem canon_idem (v : Json) : canon (canon v) = canon v := by
  have h := canon_fix v
  show pcanon (sortKeysJson (canon v)) = canon v
  rw [h.1, h.2]

/-! ## Dispatcher lemmas -/

theorem tryFetch_calls (t : Transport) (url res : String) :
    (tryFetch t url res).2 = [(url, BROWSER_HEADERS)] := by
  unfold tryFetch
  cases t url BROWSER_HEADERS with
  | requestError m => rfl
  | otherError m => rfl
  | success r =>
    dsimp only
    by_cases h : 400 ≤ r.status ∧ r.status < 600
    · rw [if_pos h]
    · rw [if_neg h]
      cases parseJson r.body <;> rfl

theorem tryFetch_status_ne_400 (t : Transport) (url res : String) :
    ¬ (tryFetch t url res).1.1 = 400 := by
  unfold tryFetch
  cases t url BROWSER_HEADERS with
  | requestError m => simp
  | otherError m => simp
  | success r =>
    dsimp only
    by_cases h : 400 ≤ r.status ∧ r.status < 600
    · rw [if_pos h]; simp
    · rw [if_neg h]; cases parseJson r.body <;> simp

/-- Every handler either rejects a missing parameter with the fixed 400
response and no upstream call, or runs the shared fetch body on its
operation URL and resource name. -/
theorem dispatch_shape (op : Op) (req : Request) (t : Transport) :
    dispatch op req t = ((400, missingSportBody), [])
    ∨ dispatch op req t = tryFetch t (opUrl op req) (resourceOf op) := by
  cases op with
  | venues => right; rfl
  | sportslist => right; rfl
  | capacity => right; rfl
  | activity =>
    rcases hs : argsGet req.args "sport" with _ | s
    · left; simp [dispatch, get_activity, hs]
    · by_cases he : s = ""
      · left; simp [dispatch, get_activity, hs, he]
      · right
        have hurl : opUrl Op.activity req = activityUrl s := by
          simp [opUrl, hs]
        simp [dispatch, get_activity, hs, he, hurl, resourceOf]

/-- With its required parameters supplied, every handler runs the shared
fetch body on its operation URL and resource name. -/
theorem dispatch_paramsOk (op : Op) (req : Request) (t : Transport)
    (hok : paramsOk op req = true) :
    dispatch op req t = tryFetch t (opUrl op req) (resourceOf op) := by
  cases op with
  | venues => rfl
  | sportslist => rfl
  | capacity => rfl
  | activity =>
    rcases hs : argsGet req.args "sport" with _ | s
    · simp [paramsOk, hs] at hok
    · have he : ¬ s = "" := by
        intro hcontra
        subst hcontra
        simp [paramsOk, hs] at hok
      have hurl : opUrl Op.activity req = activityUrl s := by
        simp [opUrl, hs]
      simp [dispatch, get_activity, hs, he, hurl, resourceOf]

theorem tryFetch_success_parse (t : Transport) (url res : String) (r : HttpResponse) (v : Json)
    (ht : t url BROWSER_HEADERS = .success r)
    (hlt : r.status < 400 ∨ 600 ≤ r.status)
    (hv : parseJson r.body = some v) :
    tryFetch t url res = ((200, jsonifyBody v), [(url, BROWSER_HEADERS)]) := by
  unfold tryFetch
  rw [ht]
  dsimp only
  rw [if_neg (by omega), hv]

theorem raiseForStatusMsg_ne_empty (status : Nat) (reason url : String) :
    ¬ raiseForStatusMsg status reason url = "" := by
  unfold raiseForStatusMsg
  split <;>
  · intro h
    have h2 := congrArg String.data h
    simp only [String.data_append] at h2
    have h3 := congrArg List.length h2
    simp only [List.length_append, List.length_cons, List.length_nil] at h3
    omega

/-! ## The claims -/

/-- Claim C1 (amended): for every operation, if the upstream call
returns a 2xx status but the response body is not valid JSON, the
dispatcher returns outbound status 500 with the fetch-failure error
body — not the parse-failure body the claim expects: under the unpinned
`requests >= 2.27` the decode exception `JSONDecodeError` subclasses
`RequestException`, so the first `except` clause catches it and the
`except ValueError` parse-failure clause is dead code for decode
failures (see the counterexample). -/
theorem claim1_decode_routed_to_fetch (op : Op) (req : Request) (t : Transport)
    (r : HttpResponse)
    (hok : paramsOk op req = true)
    (ht : t (opUrl op req) BROWSER_HEADERS = .success r)
    (h2 : 200 ≤ r.status) (h3 : r.status < 300)
    (hbad : parseJson r.body = none) :
    dispatch op req t
      = ((500, mkErrorBody (fetchFailMsg (resourceOf op)) jsonDecodeErrMsg),
         [(opUrl op req, BROWSER_HEADERS)])
    ∧ ¬ fetchFailMsg (resourceOf op) = parseFailMsg (resourceOf op) := by
  constructor
  · rw [dispatch_paramsOk op req t hok]
    unfold tryFetch
    rw [ht]
    dsimp only
    rw [if_neg (by omega), hbad]
  · cases op <;> decide

theorem claim1_witness :
    paramsOk Op.venues ⟨[], []⟩ = true
    ∧ parseJson "not json" = none
    ∧ (dispatch Op.venues ⟨[], []⟩ (constT (.success ⟨200, "OK", "not json"⟩))
        = ((500, mkErrorBody (fetchFailMsg (resourceOf Op.venues)) jsonDecodeErrMsg),
           [(opUrl Op.venues ⟨[], []⟩, BROWSER_HEADERS)])
       ∧ ¬ fetchFailMsg (resourceOf Op.venues) = parseFailMsg (resourceOf Op.venues)) :=
  ⟨rfl, rfl,
   claim1_decode_routed_to_fetch Op.venues ⟨[], []⟩ (constT (.success ⟨200, "OK", "not json"⟩))
     ⟨200, "OK", "not json"⟩ rfl rfl (by decide) (by decide) rfl⟩

theorem claim1_counterexample :
    (dispatch Op.venues ⟨[], []⟩ (constT (.success ⟨200, "OK", "not json"⟩))).1
      = (500, mkErrorBody (fetchFailMsg "venues") jsonDecodeErrMsg)
    ∧ ¬ mkErrorBody (fetchFailMsg "venues") jsonDecodeErrMsg
        = mkErrorBody (parseFailMsg "venues") jsonDecodeErrMsg :=
  ⟨rfl, by decide⟩

/-- Claim C2 (amended): a request to the activity operation whose sport
parameter is absent or the empty string is rejected with status 400, a
JSON body whose error field names the sport parameter, and no upstream
call.  The original claim also covered whitespace-only values, but the
source test `if not sport` accepts any non-empty string, so a
whitespace-only sport is forwarded upstream (see the counterexample). -/
theorem claim2_missing_or_empty_sport (req : Request) (t : Transport)
    (h : argsGet req.args "sport" = none ∨ argsGet req.args "sport" = some "") :
    dispatch Op.activity req t = ((400, missingSportBody), [])
    ∧ missingSportBody = "\x7b\"error\":\"Sport query parameter is required.\"\x7d\n" := by
  constructor
  · rcases h with h | h <;> simp [dispatch, get_activity, h]
  · rfl

theorem claim2_witness :
    dispatch Op.activity ⟨[], []⟩ (constT (.requestError "connection refused"))
        = ((400, missingSportBody), [])
    ∧ missingSportBody = "\x7b\"error\":\"Sport query parameter is required.\"\x7d\n" :=
  claim2_missing_or_empty_sport ⟨[], []⟩ (constT (.requestError "connection refused"))
    (Or.inl rfl)

theorem claim2_counterexample :
    (dispatch Op.activity ⟨[], [("sport", " ")]⟩
        (constT (.requestError "connection refused"))).1.1 = 500
    ∧ (dispatch Op.activity ⟨[], [("sport", " ")]⟩
        (constT (.requestError "connection refused"))).2.length = 1 :=
  ⟨rfl, rfl⟩

/-- Claim C3 (amended): on a 2xx upstream response whose body parses as
the JSON value v, the outbound response is status 200 with the value
re-serialised by jsonify (compact separators, sorted keys, trailing
newline) — equal to the upstream body as a JSON value but not byte for
byte (see the counterexample). -/
theorem claim3_success_reserialized (op : Op) (req : Request) (t : Transport)
    (r : HttpResponse) (v : Json)
    (hok : paramsOk op req = true)
    (ht : t (opUrl op req) BROWSER_HEADERS = .success r)
    (h2 : 200 ≤ r.status) (h3 : r.status < 300)
    (hv : parseJson r.body = some v) :
    dispatch op req t = ((200, jsonifyBody v), [(opUrl op req, BROWSER_HEADERS)]) := by
  rw [dispatch_paramsOk op req t hok]
  exact tryFetch_success_parse t (opUrl op req) (resourceOf op) r v ht (Or.inl (by omega)) hv

theorem claim3_witness :
    dispatch Op.sportslist ⟨[], []⟩ (constT (.success ⟨200, "OK", "[true, false]"⟩))
      = ((200, jsonifyBody (.arr [.bool true, .bool false])),
         [(opUrl Op.sportslist ⟨[], []⟩, BROWSER_HEADERS)]) :=
  claim3_success_reserialized Op.sportslist ⟨[], []⟩
    (constT (.success ⟨200, "OK", "[true, false]"⟩)) ⟨200, "OK", "[true, false]"⟩
    (.arr [.bool true, .bool false]) rfl rfl (by decide) (by decide) rfl

theorem claim3_counterexample :
    (dispatch Op.venues ⟨[], []⟩ (constT (.success ⟨200, "OK", "[true, false]"⟩))).1
        = (200, "[true,false]\n")
    ∧ ¬ "[true,false]\n" = "[true, false]" :=
  ⟨rfl, by decide⟩

/-- Claim C4: the encoding applied to the sport parameter before it is
spliced into the upstream URL is quote_plus, and it is reversible:
unquote_plus recovers the original string exactly, for every string
(spaces, ampersands, percent signs and unicode included). -/
theorem claim4_encoding_reversible (s : String) :
    activityUrl s = activityUrlHead ++ quote_plus s ++ activityUrlTail
    ∧ unquote_plus (quote_plus s) = some s :=
  ⟨rfl, unquote_plus_quote_plus s⟩

/-- Claim C5 (amended): a 4xx or 5xx upstream status, and likewise a
transport failure with a non-empty message, both yield outbound status
500 with the fetch-failure error body naming the operation resource and
a non-empty details field.  The original claim said every non-2xx
status takes this branch, but raise_for_status raises only for
400..599: other non-2xx statuses (such as 304) fall through to JSON
parsing (see the counterexample). -/
theorem claim5_fetch_failure (op : Op) (req : Request) (t : Transport)
    (hok : paramsOk op req = true)
    (hfail : (∃ r, t (opUrl op req) BROWSER_HEADERS = .success r
                ∧ 400 ≤ r.status ∧ r.status < 600)
      ∨ (∃ m, t (opUrl op req) BROWSER_HEADERS = .requestError m ∧ ¬ m = "")) :
    ∃ det, dispatch op req t
        = ((500, mkErrorBody (fetchFailMsg (resourceOf op)) det),
           [(opUrl op req, BROWSER_HEADERS)])
      ∧ ¬ det = "" := by
  rw [dispatch_paramsOk op req t hok]
  rcases hfail with ⟨r, ht, hge, hlt⟩ | ⟨m, ht, hm⟩
  · refine ⟨raiseForStatusMsg r.status r.reason (opUrl op req), ?_,
      raiseForStatusMsg_ne_empty r.status r.reason (opUrl op req)⟩
    unfold tryFetch
    rw [ht]
    dsimp only
    rw [if_pos ⟨hge, hlt⟩]
  · refine ⟨m, ?_, hm⟩
    unfold tryFetch
    rw [ht]

theorem claim5_witness :
    ∃ det, dispatch Op.capacity ⟨[], []⟩ (constT (.requestError "connection refused"))
        = ((500, mkErrorBody (fetchFailMsg (resourceOf Op.capacity)) det),
           [(opUrl Op.capacity ⟨[], []⟩, BROWSER_HEADERS)])
      ∧ ¬ det = "" :=
  claim5_fetch_failure Op.capacity ⟨[], []⟩ (constT (.requestError "connection refused"))
    rfl (Or.inr ⟨"connection refused", rfl, by decide⟩)

theorem claim5_counterexample :
    (dispatch Op.venues ⟨[], []⟩ (constT (.success ⟨304, "Not Modified", "[]"⟩))).1.1 = 200 :=
  rfl

/-- Claim C6: every dispatch outcome is converted at the handler
boundary into one of the fixed outbound shapes: the body is always the
jsonify serialisation of some JSON value, and the status is either 200,
or 400 or 500 with the body a JSON object carrying an error key.  The
dispatcher is a total function, so no failure propagates past it. -/
theorem claim6_fixed_shapes (op : Op) (req : Request) (t : Transport) :
    ∃ j : Json, (dispatch op req t).1.2 = jsonifyBody j
      ∧ ((dispatch op req t).1.1 = 200
         ∨ (((dispatch op req t).1.1 = 400 ∨ (dispatch op req t).1.1 = 500)
            ∧ ∃ ms, j = Json.obj ms ∧ "error" ∈ keysOf ms)) := by
  rcases dispatch_shape op req t with h | h <;> rw [h]
  · exact ⟨.obj [("error", .str "Sport query parameter is required.")],
      rfl, Or.inr ⟨Or.inl rfl, _, rfl, by simp [keysOf]⟩⟩
  · unfold tryFetch
    cases t (opUrl op req) BROWSER_HEADERS with
    | requestError m =>
      exact ⟨.obj [("error", .str (fetchFailMsg (resourceOf op))), ("details", .str m)],
        rfl, Or.inr ⟨Or.inr rfl, _, rfl, by simp [keysOf]⟩⟩
    | otherError m =>
      exact ⟨.obj [("error", .str (unexpectedMsg (resourceOf op))), ("details", .str m)],
        rfl, Or.inr ⟨Or.inr rfl, _, rfl, by simp [keysOf]⟩⟩
    | success r =>
      dsimp only
      by_cases hg : 400 ≤ r.status ∧ r.status < 600
      · rw [if_pos hg]
        exact ⟨.obj [("error", .str (fetchFailMsg (resourceOf op))),
            ("details", .str (raiseForStatusMsg r.status r.reason (opUrl op req)))],
          rfl, Or.inr ⟨Or.inr rfl, _, rfl, by simp [keysOf]⟩⟩
      · rw [if_neg hg]
        cases hv : parseJson r.body with
        | some v => exact ⟨v, rfl, Or.inl rfl⟩
        | none =>
          exact ⟨.obj [("error", .str (fetchFailMsg (resourceOf op))),
              ("details", .str jsonDecodeErrMsg)],
            rfl, Or.inr ⟨Or.inr rfl, _, rfl, by simp [keysOf]⟩⟩

/-- Claim C7: every inbound call produces exactly one outbound response
(the dispatcher is a function into one response and one call trace) and
triggers at most one upstream call; the 400 missing-parameter path
triggers none. -/
theorem claim7_single_call (op : Op) (req : Request) (t : Transport) :
    (dispatch op req t).2.length ≤ 1
    ∧ ((dispatch op req t).1.1 = 400 → (dispatch op req t).2 = []) := by
  rcases dispatch_shape op req t with h | h <;> rw [h]
  · exact ⟨by simp, fun _ => rfl⟩
  · refine ⟨?_, ?_⟩
    · rw [tryFetch_calls]
      simp
    · intro h4
      exact absurd h4 (tryFetch_status_ne_400 t (opUrl op req) (resourceOf op))

/-- Claim C8: the header set attached to every outbound upstream call is
the constant BROWSER_HEADERS table, and the whole outcome of a dispatch
is independent of the inbound request headers: two requests that agree
on query arguments but differ arbitrarily in headers dispatch
identically. -/
theorem claim8_constant_headers (op : Op) (h1 h2 a : List (String × String)) (t : Transport) :
    (∀ c ∈ (dispatch op ⟨h1, a⟩ t).2, c.2 = BROWSER_HEADERS)
    ∧ dispatch op ⟨h1, a⟩ t = dispatch op ⟨h2, a⟩ t := by
  constructor
  · rcases dispatch_shape op ⟨h1, a⟩ t with h | h <;> rw [h]
    · simp
    · rw [tryFetch_calls]
      simp
  · cases op <;> rfl

set_option maxRecDepth 40000 in
/-- Claim C9: the activity URL decomposes, for every sport string, into
a fixed prefix, the encoded payload opening (up to the searchQuery
position), the encoded sport, and a fixed encoded remainder in which
venueId, minAgeFilter, maxAgeFilter, sexFilter, postalCode,
firstSessionFromDate, lastSessionTillDate and cursor are the literal
null and limit is the literal 10 — so only the searchQuery position
varies with the input. -/
theorem claim9_payload_frame (s : String) :
    activityUrl s
      = "https://activesg.gov.sg/api/trpc/programme.listV2?input="
          ++ quote_plus jsonPayloadHead ++ quote_plus s ++ quote_plus jsonPayloadTail
    ∧ unquote_plus (quote_plus jsonPayloadHead) = some jsonPayloadHead
    ∧ unquote_plus (quote_plus jsonPayloadTail) = some jsonPayloadTail := by
  refine ⟨?_, unquote_plus_quote_plus jsonPayloadHead, unquote_plus_quote_plus jsonPayloadTail⟩
  show activityUrlHead ++ quote_plus s ++ activityUrlTail = _
  have hh : activityUrlHead
      = "https://activesg.gov.sg/api/trpc/programme.listV2?input="
          ++ quote_plus jsonPayloadHead := by rfl
  have ht : activityUrlTail = quote_plus jsonPayloadTail := by rfl
  rw [hh, ht]

/-- Claim C10: on a 2xx upstream response whose body parses to the JSON
value v, the outbound response has status 200 and its body, though
re-serialised, parses back to the canonical form of v — the same JSON
value up to canonicalisation, so the success path preserves the JSON
value semantically. -/
theorem claim10_value_preserved (op : Op) (req : Request) (t : Transport)
    (r : HttpResponse) (v : Json)
    (hok : paramsOk op req = true)
    (ht : t (opUrl op req) BROWSER_HEADERS = .success r)
    (h2 : 200 ≤ r.status) (h3 : r.status < 300)
    (hv : parseJson r.body = some v) :
    (dispatch op req t).1 = (200, jsonifyBody v)
    ∧ parseJson (dispatch op req t).1.2 = some (canon v)
    ∧ Json.sameValue (canon v) v := by
  have hd : dispatch op req t = ((200, jsonifyBody v), [(opUrl op req, BROWSER_HEADERS)]) := by
    rw [dispatch_paramsOk op req t hok]
    exact tryFetch_success_parse t (opUrl op req) (resourceOf op) r v ht (Or.inl (by omega)) hv
  rw [hd]
  refine ⟨rfl, parseJson_jsonifyBody v, ?_⟩
  show canon (canon v) = canon v
  exact canon_idem v

theorem claim10_witness :
    (dispatch Op.capacity ⟨[], []⟩ (constT (.success ⟨200, "OK", "[true]"⟩))).1
        = (200, jsonifyBody (.arr [.bool true]))
    ∧ parseJson (dispatch Op.capacity ⟨[], []⟩
        (constT (.success ⟨200, "OK", "[true]"⟩))).1.2 = some (canon (.arr [.bool true]))
    ∧ Json.sameValue (canon (.arr [.bool true])) (.arr [.bool true]) :=
  claim10_value_preserved Op.capacity ⟨[], []⟩ (constT (.success ⟨200, "OK", "[true]"⟩))
    ⟨200, "OK", "[true]"⟩ (.arr [.bool true]) rfl rfl (by decide) (by decide) rfl
